import Mathlib

/-!
# Free-fly camera controller: src/src/camera.cpp

A shallow embedding of the `Camera` class of `src/src/camera.cpp` and of the glm
library routines it calls, followed by theorems about them.

Conventions of the embedding.

* `float` is modelled by the real numbers: every arithmetic operation is exact, and
  `tanf`, `atanf`, `glm::cos`, `glm::sin`, `sqrt` are the real functions. Decimal
  literals denote their decimal value.
* The clock read by `Camera::update` is an input of `Camera.update`: the reading
  `curTime`, in seconds. A default-constructed `time_point` is the epoch, 0.
* `int` arguments are integers; the conversion `float (w)` is the cast into the reals.
* glm matrices are column-major: for `m : glm.mat4`, `m c r` is the C++ `m[c][r]`.
* The header `camera.h` is not part of the sources at hand. The member list of the class
  is read off the initializer list of the constructor, in that order.
* Division is the total division of Mathlib (a quotient by zero is zero, and so is the
  tangent at its poles), while the float quotient by zero is an infinity or NaN. The
  theorems below either do not depend on the value of such a term or assume the divisor
  to be nonzero. The one quotient whose float value at a zero divisor changes the pose,
  the argument of `atanf` in `processMouseMovement`, is modelled with that value in
  `atanfQuot` and `Camera.processMouseMovementIeee`.
-/

namespace IsoMesh

/-! ## glm: vectors, quaternions, matrices

The routines of the glm library that camera.cpp calls, after the library sources
(`glm/detail/type_quat.inl`, `glm/ext/quaternion_geometric.inl`, `glm/gtc/quaternion.inl`,
`glm/detail/type_mat4x4.inl`, `glm/ext/matrix_transform.inl`,
`glm/ext/matrix_clip_space.inl`), with the library defaults for handedness and depth range.
-/

namespace glm

/-- The glm type vec3, with real components. -/
@[ext] structure vec3 where
  x : ℝ
  y : ℝ
  z : ℝ

/-- The glm type quat. The C++ constructor takes its arguments in the order w, x, y, z. -/
@[ext] structure quat where
  w : ℝ
  x : ℝ
  y : ℝ
  z : ℝ

/-- The glm type mat3, column-major: `m c r` is `m[c][r]`. -/
abbrev mat3 : Type := Fin 3 → Fin 3 → ℝ

/-- The glm type mat4, column-major: `m c r` is `m[c][r]`. -/
abbrev mat4 : Type := Fin 4 → Fin 4 → ℝ

/-- Componentwise sum of two vec3, the C++ `a + b` (and `a += b`). -/
def vec3.add (a b : vec3) : vec3 := ⟨a.x + b.x, a.y + b.y, a.z + b.z⟩

/-- Scalar times vec3, the C++ `s * v`. -/
def vec3.smul (s : ℝ) (v : vec3) : vec3 := ⟨s * v.x, s * v.y, s * v.z⟩

/-- A vec3 times a scalar, the C++ `v * s`. -/
def vec3.mulScalar (v : vec3) (s : ℝ) : vec3 := ⟨v.x * s, v.y * s, v.z * s⟩

/-- Unary minus on vec3, the C++ `-v`. -/
def vec3.neg (v : vec3) : vec3 := ⟨-v.x, -v.y, -v.z⟩

/-- The C++ `glm::vec3 (s)`: all three components equal to `s`. -/
def vec3.splat (s : ℝ) : vec3 := ⟨s, s, s⟩

/-- Euclidean length of a vec3, `glm::length`. -/
noncomputable def vec3.length (v : vec3) : ℝ := Real.sqrt (v.x * v.x + v.y * v.y + v.z * v.z)

/-- Componentwise cosine, `glm::cos` on vec3. -/
noncomputable def cos (v : vec3) : vec3 := ⟨Real.cos v.x, Real.cos v.y, Real.cos v.z⟩

/-- Componentwise sine, `glm::sin` on vec3. -/
noncomputable def sin (v : vec3) : vec3 := ⟨Real.sin v.x, Real.sin v.y, Real.sin v.z⟩

/-- Degrees to radians, `glm::radians`: multiplication by pi / 180. -/
noncomputable def radians (degrees : ℝ) : ℝ := degrees * (Real.pi / 180)

/-- Hamilton product of quaternions, the C++ `p * q` of glm. -/
def quat.mul (p q : quat) : quat :=
  { w := p.w * q.w - p.x * q.x - p.y * q.y - p.z * q.z
    x := p.w * q.x + p.x * q.w + p.y * q.z - p.z * q.y
    y := p.w * q.y + p.y * q.w + p.z * q.x - p.x * q.z
    z := p.w * q.z + p.z * q.w + p.x * q.y - p.y * q.x }

/-- Dot product of quaternions, `glm::dot`. -/
def quat.dot (a b : quat) : ℝ := (a.w * b.w + a.x * b.x) + (a.y * b.y + a.z * b.z)

/-- Length of a quaternion, `glm::length`: the square root of `dot (q, q)`. -/
noncomputable def quat.length (q : quat) : ℝ := Real.sqrt (quat.dot q q)

/-- Quaternion normalization, `glm::normalize`: a quaternion of length zero (or less) is
replaced by the identity quaternion, any other is scaled by one over its length. -/
noncomputable def normalize (q : quat) : quat :=
  let len := quat.length q
  if len ≤ 0 then ⟨1, 0, 0, 0⟩
  else
    let oneOverLen := 1 / len
    ⟨q.w * oneOverLen, q.x * oneOverLen, q.y * oneOverLen, q.z * oneOverLen⟩

/-- Rotation matrix of a quaternion, `glm::mat3_cast`. -/
def mat3_cast (q : quat) : mat3 :=
  let qxx := q.x * q.x
  let qyy := q.y * q.y
  let qzz := q.z * q.z
  let qxz := q.x * q.z
  let qxy := q.x * q.y
  let qyz := q.y * q.z
  let qwx := q.w * q.x
  let qwy := q.w * q.y
  let qwz := q.w * q.z
  ![![1 - 2 * (qyy + qzz), 2 * (qxy + qwz), 2 * (qxz - qwy)],
    ![2 * (qxy - qwz), 1 - 2 * (qxx + qzz), 2 * (qyz + qwx)],
    ![2 * (qxz + qwy), 2 * (qyz - qwx), 1 - 2 * (qxx + qyy)]]

/-- The C++ `glm::mat4 (s)`: `s` on the diagonal, zero elsewhere. -/
def mat4.diag (s : ℝ) : mat4 := fun c r => if c = r then s else 0

/-- The C++ conversion `glm::mat4 (m)` of a mat3: `m` in the upper left block, the rest
taken from the identity. -/
def mat4.ofMat3 (m : mat3) : mat4 :=
  ![![m 0 0, m 0 1, m 0 2, 0],
    ![m 1 0, m 1 1, m 1 2, 0],
    ![m 2 0, m 2 1, m 2 2, 0],
    ![0, 0, 0, 1]]

/-- Rotation matrix of a quaternion as a mat4, `glm::mat4_cast`. -/
def mat4_cast (q : quat) : mat4 := mat4.ofMat3 (mat3_cast q)

/-- Matrix product of glm, the C++ `a * b`: column `c` of the result is the combination
of the columns of `a` with the entries of column `c` of `b`. -/
def mat4.mul (a b : mat4) : mat4 :=
  fun c r => a 0 r * b c 0 + a 1 r * b c 1 + a 2 r * b c 2 + a 3 r * b c 3

/-- The glm routine `glm::translate (m, v)`: `m` with its last column replaced by
`m[0] * v[0] + m[1] * v[1] + m[2] * v[2] + m[3]`. -/
def translate (m : mat4) (v : vec3) : mat4 :=
  fun c r => if c = 3 then m 0 r * v.x + m 1 r * v.y + m 2 r * v.z + m 3 r else m c r

/-- The glm routine `glm::perspectiveFov (fov, width, height, zNear, zFar)`, in its default
(right-handed, depth range -1 to 1) variant; the entries (0,0) and (1,1) are the same in the
other variants. Its debug assertions on `fov`, `width` and `height` are no part of the
value. -/
noncomputable def perspectiveFov (fov width height zNear zFar : ℝ) : mat4 :=
  let rad := fov
  let h := Real.cos (0.5 * rad) / Real.sin (0.5 * rad)
  let w := h * height / width
  ![![w, 0, 0, 0],
    ![0, h, 0, 0],
    ![0, 0, -(zFar + zNear) / (zFar - zNear), -1],
    ![0, 0, -(2 * zFar * zNear) / (zFar - zNear), 0]]

end glm

/-! ## Qt key codes

The values of the enumeration `Qt::Key` (header `qnamespace.h` of Qt) for the 8 keys that
camera.cpp names.
-/

namespace Qt

/-- Key code of W in the enumeration `Qt::Key`. -/
def Key_W : Int := 0x57
/-- Key code of S in the enumeration `Qt::Key`. -/
def Key_S : Int := 0x53
/-- Key code of A in the enumeration `Qt::Key`. -/
def Key_A : Int := 0x41
/-- Key code of D in the enumeration `Qt::Key`. -/
def Key_D : Int := 0x44
/-- Key code of C in the enumeration `Qt::Key`. -/
def Key_C : Int := 0x43
/-- Key code of the space bar in the enumeration `Qt::Key`. -/
def Key_Space : Int := 0x20
/-- Key code of Q in the enumeration `Qt::Key`. -/
def Key_Q : Int := 0x51
/-- Key code of E in the enumeration `Qt::Key`. -/
def Key_E : Int := 0x45

end Qt

/-! ## The camera -/

/-- Modelled from the spec: the enumeration `Key` of camera.h, the index type of the array
`m_keyPressed`. The spec lists its 8 logical actions; the enumerator names are the ones
used in camera.cpp, and the sentinel `KeyCount` is their number. -/
inductive Key where
  | KeyForward
  | KeyBack
  | KeyLeft
  | KeyRight
  | KeyUp
  | KeyDown
  | KeyRollCW
  | KeyRollCCW
  deriving DecidableEq, Repr

/-- The values of the loop index `i` with `i < Key::KeyCount`, as enumerators. -/
def Key.all : List Key :=
  [Key.KeyForward, Key.KeyBack, Key.KeyLeft, Key.KeyRight, Key.KeyUp, Key.KeyDown,
    Key.KeyRollCW, Key.KeyRollCCW]

/-- The loop `for (i = 0; i < Key::KeyCount; i++) m_keyPressed[i] = false`, found in the
constructor and in `resetKeyState`. -/
def clearKeys (keyPressed : Key → Bool) : Key → Bool :=
  Key.all.foldl (fun kp k => Function.update kp k false) keyPressed

/-- The constant `kDefaultFov`. -/
def kDefaultFov : ℝ := 65.0
/-- The constant `kDefaultAspectRatio`. -/
noncomputable def kDefaultAspectRatio : ℝ := 16.0 / 9.0
/-- The constant `kDefaultMouseSensitivity`. -/
noncomputable def kDefaultMouseSensitivity : ℝ := 0.5
/-- The constant `kDefaultForwardSpeed`. -/
def kDefaultForwardSpeed : ℝ := 10.0
/-- The constant `kDefaultStrafeSpeed`. -/
def kDefaultStrafeSpeed : ℝ := 5.0
/-- The constant `kRollSpeed`. -/
noncomputable def kRollSpeed : ℝ := 1.5
/-- The constant `kNearPlane`. -/
noncomputable def kNearPlane : ℝ := 0.01
/-- The constant `kFarPlane`. -/
def kFarPlane : ℝ := 5000.0

/-- The data members of the class `Camera`, as camera.cpp uses them (the class declaration
is in camera.h). The array `m_keyPressed` is a function on its index type;
`m_lastUpdateTime` is a time in seconds; the counter `m_framesRendered` is a natural
number. -/
structure Camera where
  m_proj : glm.mat4
  m_view : glm.mat4
  m_position : glm.vec3
  m_orientation : glm.quat
  m_fovDegrees : ℝ
  m_tanAX2 : ℝ
  m_tanAY2 : ℝ
  m_width : ℝ
  m_height : ℝ
  m_avgFrameTime : ℝ
  m_framesRendered : Nat
  m_mouseSensitivity : ℝ
  m_forwardSpeed : ℝ
  m_strafeSpeed : ℝ
  m_keyPressed : Key → Bool
  m_lastUpdateTime : ℝ

/-- The constructor `Camera::Camera ()`; the name `Camera.Camera` would shadow the type.
The array `m_keyPressed` has no initializer: the loop of the body overwrites all of it. -/
noncomputable def Camera.ctor : Camera :=
  { m_proj := glm.mat4.diag 1.0
    m_view := glm.mat4.diag 1.0
    m_position := glm.vec3.splat 0.0
    m_orientation := ⟨1.0, 0.0, 0.0, 0.0⟩
    m_fovDegrees := kDefaultFov
    m_tanAX2 := Real.tan (kDefaultFov * 0.5)
    m_tanAY2 := Real.tan (kDefaultFov * 0.5) / kDefaultAspectRatio
    m_width := kDefaultAspectRatio
    m_height := 1.0
    m_avgFrameTime := 0
    m_framesRendered := 0
    m_mouseSensitivity := kDefaultMouseSensitivity
    m_forwardSpeed := kDefaultForwardSpeed
    m_strafeSpeed := kDefaultStrafeSpeed
    m_keyPressed := clearKeys (fun _ => false)
    m_lastUpdateTime := 0 }

/-- The method `Camera::recalcProjection`, in real arithmetic. For `m_width = 0` the float
code stores an infinity or NaN in `m_tanAY2` and in `m_proj`, which no real number stands
for: the theorems that state a value of these members assume a nonzero width, the others
state the stored expression as it is written. -/
noncomputable def Camera.recalcProjection (c : Camera) : Camera :=
  let fov_radians := glm.radians c.m_fovDegrees
  let tanAX2 := Real.tan fov_radians
  { c with
    m_tanAX2 := tanAX2
    m_tanAY2 := tanAX2 * c.m_height / c.m_width
    m_proj := glm.perspectiveFov fov_radians c.m_width c.m_height kNearPlane kFarPlane }

/-- The method `Camera::setFovDegrees`. -/
noncomputable def Camera.setFovDegrees (c : Camera) (f : ℝ) : Camera :=
  Camera.recalcProjection { c with m_fovDegrees := f }

/-- The method `Camera::setScreenSize`. -/
noncomputable def Camera.setScreenSize (c : Camera) (w h : Int) : Camera :=
  Camera.recalcProjection { c with m_width := (w : ℝ), m_height := (h : ℝ) }

/-- The method `Camera::setKeyState`: the returned pair is the C++ return value and the
camera after the call. -/
def Camera.setKeyState (c : Camera) (key : Int) (pressed : Bool) : Bool × Camera :=
  if key = Qt.Key_W then
    (true, { c with m_keyPressed := Function.update c.m_keyPressed Key.KeyForward pressed })
  else if key = Qt.Key_S then
    (true, { c with m_keyPressed := Function.update c.m_keyPressed Key.KeyBack pressed })
  else if key = Qt.Key_A then
    (true, { c with m_keyPressed := Function.update c.m_keyPressed Key.KeyLeft pressed })
  else if key = Qt.Key_D then
    (true, { c with m_keyPressed := Function.update c.m_keyPressed Key.KeyRight pressed })
  else if key = Qt.Key_C then
    (true, { c with m_keyPressed := Function.update c.m_keyPressed Key.KeyDown pressed })
  else if key = Qt.Key_Space then
    (true, { c with m_keyPressed := Function.update c.m_keyPressed Key.KeyUp pressed })
  else if key = Qt.Key_Q then
    (true, { c with m_keyPressed := Function.update c.m_keyPressed Key.KeyRollCCW pressed })
  else if key = Qt.Key_E then
    (true, { c with m_keyPressed := Function.update c.m_keyPressed Key.KeyRollCW pressed })
  else
    (false, c)

/-- The method `Camera::resetKeyState`. -/
def Camera.resetKeyState (c : Camera) : Camera :=
  { c with m_keyPressed := clearKeys c.m_keyPressed }

/-- The static function `quatFromEulerAngles` of camera.cpp. -/
noncomputable def quatFromEulerAngles (pitch yaw roll : ℝ) : glm.quat :=
  let eulerAngle : glm.vec3 := ⟨pitch * 0.5, yaw * 0.5, roll * 0.5⟩
  let c := glm.cos (glm.vec3.mulScalar eulerAngle 0.5)
  let s := glm.sin (glm.vec3.mulScalar eulerAngle 0.5)
  { w := c.x * c.y * c.z + s.x * s.y * s.z
    x := s.x * c.y * c.z - c.x * s.y * s.z
    y := c.x * s.y * c.z + s.x * c.y * s.z
    z := c.x * c.y * s.z - s.x * s.y * c.z }

/-- The method `Camera::processMouseMovement`, in real arithmetic. It is the method for
every camera whose `m_width` and `m_height` are not 0; for a width or height 0 the float
quotient under `atanf` is an infinity or NaN, and the method is
`Camera.processMouseMovementIeee`. -/
noncomputable def Camera.processMouseMovement (c : Camera) (dx dy : ℝ) : Camera :=
  let yawAngle := c.m_mouseSensitivity * Real.arctan (2 * dx * c.m_tanAX2 / c.m_width)
  let pitchAngle := c.m_mouseSensitivity * Real.arctan (2 * dy * c.m_tanAY2 / c.m_height)
  let rotQuat := quatFromEulerAngles pitchAngle yawAngle 0.0
  let orientation := glm.normalize (glm.quat.mul rotQuat c.m_orientation)
  { c with
    m_orientation := orientation
    m_view := glm.mat4.mul (glm.mat4_cast orientation)
      (glm.translate (glm.mat4.diag 1.0) (glm.vec3.neg c.m_position)) }

/-- The method `Camera::update`. The argument `curTime` is the reading of
`std::chrono::high_resolution_clock::now ()`, so that the elapsed time of the call is
`curTime - c.m_lastUpdateTime`. -/
noncomputable def Camera.update (c : Camera) (curTime : ℝ) : Camera :=
  let deltaTime := curTime - c.m_lastUpdateTime
  let rotMat := glm.mat3_cast c.m_orientation
  let dir : glm.vec3 := ⟨rotMat 0 2, rotMat 1 2, rotMat 2 2⟩
  let right : glm.vec3 := ⟨rotMat 0 0, rotMat 1 0, rotMat 2 0⟩
  let up : glm.vec3 := ⟨rotMat 0 1, rotMat 1 1, rotMat 2 1⟩
  let dx : ℝ := 0
  let dx := if c.m_keyPressed Key.KeyLeft then dx - c.m_strafeSpeed else dx
  let dx := if c.m_keyPressed Key.KeyRight then dx + c.m_strafeSpeed else dx
  let position := glm.vec3.add c.m_position (glm.vec3.smul (dx * deltaTime) right)
  let dy : ℝ := 0
  let dy := if c.m_keyPressed Key.KeyDown then dy - c.m_strafeSpeed else dy
  let dy := if c.m_keyPressed Key.KeyUp then dy + c.m_strafeSpeed else dy
  let position := glm.vec3.add position (glm.vec3.smul (dy * deltaTime) up)
  let dz : ℝ := 0
  let dz := if c.m_keyPressed Key.KeyForward then dz - c.m_forwardSpeed else dz
  let dz := if c.m_keyPressed Key.KeyBack then dz + c.m_forwardSpeed else dz
  let position := glm.vec3.add position (glm.vec3.smul (dz * deltaTime) dir)
  let rollAngle : ℝ := 0
  let rollAngle := if c.m_keyPressed Key.KeyRollCCW then rollAngle - kRollSpeed * deltaTime
    else rollAngle
  let rollAngle := if c.m_keyPressed Key.KeyRollCW then rollAngle + kRollSpeed * deltaTime
    else rollAngle
  let rotQuat := quatFromEulerAngles 0 0 rollAngle
  let orientation := glm.normalize (glm.quat.mul rotQuat c.m_orientation)
  { c with
    m_lastUpdateTime := curTime
    m_avgFrameTime := 0.25 * deltaTime + 0.75 * c.m_avgFrameTime
    m_framesRendered := c.m_framesRendered + 1
    m_position := position
    m_orientation := orientation
    m_view := glm.mat4.mul (glm.mat4_cast orientation)
      (glm.translate (glm.mat4.diag 1.0) (glm.vec3.neg position)) }

/-- A call of `update` at the moment the clock has advanced by `elapsed` seconds since the
previous call: the call whose `deltaTime` is `elapsed`. -/
noncomputable def Camera.updateElapsed (c : Camera) (elapsed : ℝ) : Camera :=
  c.update (c.m_lastUpdateTime + elapsed)

/-- The camera with the two keys `k1` and `k2` released. -/
def Camera.releasePair (c : Camera) (k1 k2 : Key) : Camera :=
  { c with m_keyPressed := Function.update (Function.update c.m_keyPressed k1 false) k2 false }

/-- Componentwise difference of two vec3, the C++ `a - b`. -/
def glm.vec3.sub (a b : glm.vec3) : glm.vec3 := ⟨a.x - b.x, a.y - b.y, a.z - b.z⟩

/-- The default camera after all 8 keys were pressed through `setKeyState`. -/
noncomputable def allKeysPressed : Camera :=
  ((((((((Camera.ctor.setKeyState Qt.Key_W true).2.setKeyState Qt.Key_S true).2.setKeyState
    Qt.Key_A true).2.setKeyState Qt.Key_D true).2.setKeyState Qt.Key_C true).2.setKeyState
    Qt.Key_Space true).2.setKeyState Qt.Key_Q true).2.setKeyState Qt.Key_E true).2

/-- The default camera with W held. -/
noncomputable def forwardHeld : Camera := (Camera.ctor.setKeyState Qt.Key_W true).2

/-- The default camera with W held and the forward speed set to -1. -/
noncomputable def forwardHeldReversed : Camera := { forwardHeld with m_forwardSpeed := -1 }

/-- The local `dir` of `Camera::update`, as a function of the orientation. -/
def Camera.dir (c : Camera) : glm.vec3 :=
  let rotMat := glm.mat3_cast c.m_orientation
  ⟨rotMat 0 2, rotMat 1 2, rotMat 2 2⟩

/-- The local `right` of `Camera::update`, as a function of the orientation. -/
def Camera.right (c : Camera) : glm.vec3 :=
  let rotMat := glm.mat3_cast c.m_orientation
  ⟨rotMat 0 0, rotMat 1 0, rotMat 2 0⟩

/-- The local `up` of `Camera::update`, as a function of the orientation. -/
def Camera.up (c : Camera) : glm.vec3 :=
  let rotMat := glm.mat3_cast c.m_orientation
  ⟨rotMat 0 1, rotMat 1 1, rotMat 2 1⟩

/-- The view matrix both `processMouseMovement` and `update` store: the C++ expression
`glm::mat4_cast (orientation) * glm::translate (glm::mat4 (1.0f), -position)`. -/
def viewOf (orientation : glm.quat) (position : glm.vec3) : glm.mat4 :=
  glm.mat4.mul (glm.mat4_cast orientation)
    (glm.translate (glm.mat4.diag 1.0) (glm.vec3.neg position))

/-- The local `yawAngle` of `Camera::processMouseMovement`, as a function of the camera and
of the argument `dx`. -/
noncomputable def Camera.yawAngle (c : Camera) (dx : ℝ) : ℝ :=
  c.m_mouseSensitivity * Real.arctan (2 * dx * c.m_tanAX2 / c.m_width)

/-- The local `pitchAngle` of `Camera::processMouseMovement`, as a function of the camera and
of the argument `dy`. -/
noncomputable def Camera.pitchAngle (c : Camera) (dy : ℝ) : ℝ :=
  c.m_mouseSensitivity * Real.arctan (2 * dy * c.m_tanAY2 / c.m_height)

/-- The local `rollAngle` of `Camera::update`, as a function of the key flags and of the
local `deltaTime`. -/
noncomputable def Camera.rollAngle (c : Camera) (deltaTime : ℝ) : ℝ :=
  let rollAngle : ℝ := 0
  let rollAngle := if c.m_keyPressed Key.KeyRollCCW then rollAngle - kRollSpeed * deltaTime
    else rollAngle
  let rollAngle := if c.m_keyPressed Key.KeyRollCW then rollAngle + kRollSpeed * deltaTime
    else rollAngle
  rollAngle

/-- The net signed unit contribution of a pair of opposing keys: 1 for the flag of the key
`plus`, minus 1 for the flag of the key `minus`. -/
def Camera.net (c : Camera) (plus minus : Key) : ℝ :=
  (if c.m_keyPressed plus then 1 else 0) - (if c.m_keyPressed minus then 1 else 0)

/-- The closed form that the specification gives for `quatFromEulerAngles`, in which the
half-angles are half of the arguments passed. -/
noncomputable def quatFromEulerAnglesSpec (p y r : ℝ) : glm.quat :=
  { w := Real.cos (p / 2) * Real.cos (y / 2) * Real.cos (r / 2)
      + Real.sin (p / 2) * Real.sin (y / 2) * Real.sin (r / 2)
    x := Real.sin (p / 2) * Real.cos (y / 2) * Real.cos (r / 2)
      - Real.cos (p / 2) * Real.sin (y / 2) * Real.sin (r / 2)
    y := Real.cos (p / 2) * Real.sin (y / 2) * Real.cos (r / 2)
      + Real.sin (p / 2) * Real.cos (y / 2) * Real.sin (r / 2)
    z := Real.cos (p / 2) * Real.cos (y / 2) * Real.sin (r / 2)
      - Real.sin (p / 2) * Real.sin (y / 2) * Real.cos (r / 2) }

/-- The default camera after `setFovDegrees (45)`: the tangent of its field of view is 1. -/
noncomputable def fov45 : Camera := Camera.ctor.setFovDegrees 45

/-- The C expression `atanf (a / b)` for real `a` and `b`, with the float value of a
quotient by zero. For `b = 0` (the `+0.0` that `float (0)` is) the quotient is plus infinity
for `a > 0` and minus infinity for `a < 0`, and `atanf` of it is plus or minus pi / 2; for
`a = 0` the quotient `0 / 0` is NaN and so is its `atanf`: the value `none`. -/
noncomputable def atanfQuot (a b : ℝ) : Option ℝ :=
  if b = 0 then
    if 0 < a then some (Real.pi / 2)
    else if a < 0 then some (-(Real.pi / 2))
    else none
  else some (Real.arctan (a / b))

/-- The method `Camera::processMouseMovement` with the float value of the two quotients
under `atanf`. When one of the two angles is NaN, every component of `rotQuat` is NaN,
`glm::normalize` passes it on (`len <= 0` is false for NaN) and the orientation stored is
NaN: the value `none`. -/
noncomputable def Camera.processMouseMovementIeee (c : Camera) (dx dy : ℝ) : Option Camera :=
  match atanfQuot (2 * dx * c.m_tanAX2) c.m_width, atanfQuot (2 * dy * c.m_tanAY2) c.m_height with
  | some atanX, some atanY =>
    let yawAngle := c.m_mouseSensitivity * atanX
    let pitchAngle := c.m_mouseSensitivity * atanY
    let rotQuat := quatFromEulerAngles pitchAngle yawAngle 0.0
    let orientation := glm.normalize (glm.quat.mul rotQuat c.m_orientation)
    some { c with
      m_orientation := orientation
      m_view := glm.mat4.mul (glm.mat4_cast orientation)
        (glm.translate (glm.mat4.diag 1.0) (glm.vec3.neg c.m_position)) }
  | _, _ => none

/-- The default camera after `setScreenSize (800, 0)`: a viewport of height 0. -/
noncomputable def zeroHeightViewport : Camera := Camera.ctor.setScreenSize 800 0

/-! ## Call sequences -/

/-- One call of a public method of the camera, with its arguments. -/
inductive Call where
  | setFovDegrees (f : ℝ)
  | setScreenSize (w h : Int)
  | setKeyState (key : Int) (pressed : Bool)
  | resetKeyState
  | processMouseMovement (dx dy : ℝ)
  | update (curTime : ℝ)

/-- The camera after one call. -/
noncomputable def Call.apply (c : Camera) : Call → Camera
  | .setFovDegrees f => c.setFovDegrees f
  | .setScreenSize w h => c.setScreenSize w h
  | .setKeyState key pressed => (c.setKeyState key pressed).2
  | .resetKeyState => c.resetKeyState
  | .processMouseMovement dx dy => c.processMouseMovement dx dy
  | .update curTime => c.update curTime

/-- The camera after a sequence of calls, made from left to right. -/
noncomputable def runCalls (c : Camera) (calls : List Call) : Camera :=
  calls.foldl Call.apply c

/-- A call that leaves the viewport with a width and a height other than 0: every call but
a `setScreenSize (w, h)` with `w = 0` or `h = 0`. -/
def Call.viewportNonzero : Call → Prop
  | .setScreenSize w h => w ≠ 0 ∧ h ≠ 0
  | _ => True

/-! ## Auxiliary facts on the glm routines -/

theorem glm.quat.dot_self_nonneg (q : glm.quat) : 0 ≤ glm.quat.dot q q := by
  unfold glm.quat.dot
  nlinarith [mul_self_nonneg q.w, mul_self_nonneg q.x, mul_self_nonneg q.y, mul_self_nonneg q.z]

theorem glm.quat.length_eq_one_iff (q : glm.quat) :
    glm.quat.length q = 1 ↔ glm.quat.dot q q = 1 := by
  unfold glm.quat.length
  constructor
  · intro h
    have h2 := Real.sq_sqrt (glm.quat.dot_self_nonneg q)
    rw [h] at h2
    linarith
  · intro h
    rw [h, Real.sqrt_one]

theorem glm.quat.length_identity : glm.quat.length ⟨1, 0, 0, 0⟩ = 1 := by
  rw [glm.quat.length_eq_one_iff]
  simp [glm.quat.dot]

/-- The result of `glm::normalize` has length 1, whatever the argument. -/
theorem glm.length_normalize (q : glm.quat) : glm.quat.length (glm.normalize q) = 1 := by
  unfold glm.normalize
  by_cases h : glm.quat.length q ≤ 0
  · simp only [h, if_true]
    exact glm.quat.length_identity
  · simp only [h, if_false]
    rw [glm.quat.length_eq_one_iff]
    have hpos : 0 < glm.quat.length q := lt_of_not_ge h
    have hsq : glm.quat.length q * glm.quat.length q = glm.quat.dot q q := by
      unfold glm.quat.length
      exact Real.mul_self_sqrt (glm.quat.dot_self_nonneg q)
    have hne : glm.quat.length q ≠ 0 := ne_of_gt hpos
    have key : glm.quat.dot q q * (1 / glm.quat.length q * (1 / glm.quat.length q)) = 1 := by
      rw [← hsq]
      field_simp
    refine Eq.trans ?_ key
    simp only [glm.quat.dot]
    ring

/-- On a quaternion of length 1 `glm::normalize` is the identity. -/
theorem glm.normalize_of_length_eq_one (q : glm.quat) (h : glm.quat.length q = 1) :
    glm.normalize q = q := by
  unfold glm.normalize
  simp [h]

theorem glm.quat.identity_mul (q : glm.quat) : glm.quat.mul ⟨1, 0, 0, 0⟩ q = q := by
  ext <;> simp [glm.quat.mul]

theorem quatFromEulerAngles_zero : quatFromEulerAngles 0 0 0 = ⟨1, 0, 0, 0⟩ := by
  ext <;> simp [quatFromEulerAngles, glm.cos, glm.sin, glm.vec3.mulScalar]

/-! ## Auxiliary facts on the camera methods -/

theorem Camera.length_orientation_processMouseMovement (c : Camera) (dx dy : ℝ) :
    glm.quat.length (c.processMouseMovement dx dy).m_orientation = 1 := by
  simp only [Camera.processMouseMovement]
  exact glm.length_normalize _

theorem Camera.length_orientation_update (c : Camera) (curTime : ℝ) :
    glm.quat.length (c.update curTime).m_orientation = 1 := by
  simp only [Camera.update]
  exact glm.length_normalize _

theorem Call.length_orientation_apply (c : Camera) (call : Call)
    (h : glm.quat.length c.m_orientation = 1) :
    glm.quat.length (call.apply c).m_orientation = 1 := by
  cases call with
  | setFovDegrees f => exact h
  | setScreenSize w h2 => exact h
  | setKeyState key pressed =>
    simp only [Call.apply, Camera.setKeyState]
    split_ifs <;> exact h
  | resetKeyState => exact h
  | processMouseMovement dx dy => exact Camera.length_orientation_processMouseMovement c dx dy
  | update curTime => exact Camera.length_orientation_update c curTime

theorem runCalls_keeps_unit_orientation (calls : List Call) (c : Camera)
    (h : glm.quat.length c.m_orientation = 1) :
    glm.quat.length (runCalls c calls).m_orientation = 1 := by
  induction calls generalizing c with
  | nil => exact h
  | cons call rest ih =>
    simp only [runCalls, List.foldl_cons]
    exact ih (call.apply c) (Call.length_orientation_apply c call h)

/-- The translation of one `update`: the three increments of `m_position`, with the net
speed of each axis written as a difference of the two key contributions. -/
theorem Camera.update_position_eq (c : Camera) (curTime : ℝ) :
    (c.update curTime).m_position =
      glm.vec3.add (glm.vec3.add (glm.vec3.add c.m_position
        (glm.vec3.smul (((if c.m_keyPressed Key.KeyRight then c.m_strafeSpeed else 0)
            - (if c.m_keyPressed Key.KeyLeft then c.m_strafeSpeed else 0))
          * (curTime - c.m_lastUpdateTime)) c.right))
        (glm.vec3.smul (((if c.m_keyPressed Key.KeyUp then c.m_strafeSpeed else 0)
            - (if c.m_keyPressed Key.KeyDown then c.m_strafeSpeed else 0))
          * (curTime - c.m_lastUpdateTime)) c.up))
        (glm.vec3.smul (((if c.m_keyPressed Key.KeyBack then c.m_forwardSpeed else 0)
            - (if c.m_keyPressed Key.KeyForward then c.m_forwardSpeed else 0))
          * (curTime - c.m_lastUpdateTime)) c.dir) := by
  simp only [Camera.update, Camera.right, Camera.up, Camera.dir]
  split_ifs <;> (ext <;> simp only [glm.vec3.add, glm.vec3.smul] <;> ring)

/-- The roll of one `update`, with the net roll angle written as a difference. -/
theorem Camera.update_orientation_eq (c : Camera) (curTime : ℝ) :
    (c.update curTime).m_orientation =
      glm.normalize (glm.quat.mul
        (quatFromEulerAngles 0 0
          (((if c.m_keyPressed Key.KeyRollCW then kRollSpeed else 0)
            - (if c.m_keyPressed Key.KeyRollCCW then kRollSpeed else 0))
            * (curTime - c.m_lastUpdateTime)))
        c.m_orientation) := by
  simp only [Camera.update]
  congr 3
  split_ifs <;> ring

theorem Camera.update_view_eq (c : Camera) (curTime : ℝ) :
    (c.update curTime).m_view
      = viewOf (c.update curTime).m_orientation (c.update curTime).m_position := rfl

/-- Without a net roll, `update` keeps an orientation of length 1. -/
theorem Camera.update_orientation_of_roll_balanced (c : Camera) (curTime : ℝ)
    (hunit : glm.quat.length c.m_orientation = 1)
    (hroll : c.m_keyPressed Key.KeyRollCW = c.m_keyPressed Key.KeyRollCCW) :
    (c.update curTime).m_orientation = c.m_orientation := by
  rw [Camera.update_orientation_eq, hroll, sub_self, zero_mul, quatFromEulerAngles_zero,
    glm.quat.identity_mul, glm.normalize_of_length_eq_one _ hunit]

theorem clearKeys_apply (keyPressed : Key → Bool) (k : Key) :
    clearKeys keyPressed k = false := by
  cases k <;> simp [clearKeys, Key.all, Function.update]

theorem Camera.ctor_orientation_unit : glm.quat.length Camera.ctor.m_orientation = 1 := by
  rw [glm.quat.length_eq_one_iff]
  norm_num [Camera.ctor, glm.quat.dot]

/-- Frame splitting: without a net roll and with an orientation of length 1, the position
after two calls of `update` is the position after the second call alone. -/
theorem Camera.update_update_position (c : Camera) (t1 t2 : ℝ)
    (hunit : glm.quat.length c.m_orientation = 1)
    (hroll : c.m_keyPressed Key.KeyRollCW = c.m_keyPressed Key.KeyRollCCW) :
    ((c.update t1).update t2).m_position = (c.update t2).m_position := by
  have ho := Camera.update_orientation_of_roll_balanced c t1 hunit hroll
  have hr : (c.update t1).right = c.right := by simp only [Camera.right, ho]
  have hu : (c.update t1).up = c.up := by simp only [Camera.up, ho]
  have hd : (c.update t1).dir = c.dir := by simp only [Camera.dir, ho]
  have hk : (c.update t1).m_keyPressed = c.m_keyPressed := rfl
  have hs : (c.update t1).m_strafeSpeed = c.m_strafeSpeed := rfl
  have hf : (c.update t1).m_forwardSpeed = c.m_forwardSpeed := rfl
  have hl : (c.update t1).m_lastUpdateTime = t1 := rfl
  rw [Camera.update_position_eq (c.update t1) t2, hr, hu, hd, hk, hs, hf, hl,
    Camera.update_position_eq c t1, Camera.update_position_eq c t2]
  ext <;> simp only [glm.vec3.add, glm.vec3.smul] <;> ring

/-- With no translation key pressed, `update` keeps the position. -/
theorem Camera.update_position_of_no_translation (c : Camera) (curTime : ℝ)
    (hl : c.m_keyPressed Key.KeyLeft = false) (hr : c.m_keyPressed Key.KeyRight = false)
    (hu : c.m_keyPressed Key.KeyUp = false) (hd : c.m_keyPressed Key.KeyDown = false)
    (hf : c.m_keyPressed Key.KeyForward = false) (hb : c.m_keyPressed Key.KeyBack = false) :
    (c.update curTime).m_position = c.m_position := by
  rw [Camera.update_position_eq, hl, hr, hu, hd, hf, hb]
  ext <;> simp [glm.vec3.add, glm.vec3.smul]

/-- For an orientation of length 1 the vector `dir` has length 1. -/
theorem Camera.dir_dot_self (c : Camera) (hunit : glm.quat.length c.m_orientation = 1) :
    c.dir.x * c.dir.x + c.dir.y * c.dir.y + c.dir.z * c.dir.z = 1 := by
  rw [glm.quat.length_eq_one_iff] at hunit
  simp only [glm.quat.dot] at hunit
  simp [Camera.dir, glm.mat3_cast]
  linear_combination (4 * (c.m_orientation.x ^ 2 + c.m_orientation.y ^ 2)) * hunit

theorem glm.vec3.length_smul (a : ℝ) (v : glm.vec3) (hv : v.x * v.x + v.y * v.y + v.z * v.z = 1) :
    glm.vec3.length (glm.vec3.smul a v) = |a| := by
  simp only [glm.vec3.length, glm.vec3.smul]
  have h : a * v.x * (a * v.x) + a * v.y * (a * v.y) + a * v.z * (a * v.z) = a ^ 2 := by
    linear_combination (a ^ 2) * hv
  rw [h, Real.sqrt_sq_eq_abs]

/-- With Forward the only key pressed, `update` moves the position by
`-(m_forwardSpeed * deltaTime) * dir`. -/
theorem Camera.update_displacement_forward_only (c : Camera) (curTime : ℝ)
    (hfwd : c.m_keyPressed Key.KeyForward = true)
    (hrest : ∀ k : Key, k ≠ Key.KeyForward → c.m_keyPressed k = false) :
    glm.vec3.sub (c.update curTime).m_position c.m_position
      = glm.vec3.smul (-(c.m_forwardSpeed * (curTime - c.m_lastUpdateTime))) c.dir := by
  rw [Camera.update_position_eq, hfwd, hrest Key.KeyLeft (by decide),
    hrest Key.KeyRight (by decide), hrest Key.KeyUp (by decide), hrest Key.KeyDown (by decide),
    hrest Key.KeyBack (by decide)]
  ext <;> simp [glm.vec3.add, glm.vec3.smul, glm.vec3.sub]

/-- The two diagonal entries of the projection matrix that `recalcProjection` stores: the
entry (1,1) is the cotangent of half the field of view, the entry (0,0) is that cotangent
times height over width. -/
theorem Camera.recalcProjection_diagonal (c : Camera) :
    c.recalcProjection.m_proj 0 0
        = Real.cos (0.5 * glm.radians c.m_fovDegrees) / Real.sin (0.5 * glm.radians c.m_fovDegrees)
          * c.m_height / c.m_width
    ∧ c.recalcProjection.m_proj 1 1
        = Real.cos (0.5 * glm.radians c.m_fovDegrees)
          / Real.sin (0.5 * glm.radians c.m_fovDegrees) :=
  ⟨rfl, rfl⟩

theorem glm.half_of_radians_ninety : 0.5 * glm.radians 90 = Real.pi / 4 := by
  unfold glm.radians
  ring

/-! ## Auxiliary facts on quaternions and on quatFromEulerAngles -/

theorem glm.quat.mul_assoc (p q r : glm.quat) :
    glm.quat.mul (glm.quat.mul p q) r = glm.quat.mul p (glm.quat.mul q r) := by
  ext <;> simp only [glm.quat.mul] <;> ring

/-- The squared length is multiplicative. -/
theorem glm.quat.dot_mul_self (p q : glm.quat) :
    glm.quat.dot (glm.quat.mul p q) (glm.quat.mul p q)
      = glm.quat.dot p p * glm.quat.dot q q := by
  simp only [glm.quat.dot, glm.quat.mul]
  ring

theorem glm.quat.length_mul_of_unit (p q : glm.quat) (hp : glm.quat.length p = 1)
    (hq : glm.quat.length q = 1) : glm.quat.length (glm.quat.mul p q) = 1 := by
  rw [glm.quat.length_eq_one_iff] at hp hq ⊢
  rw [glm.quat.dot_mul_self, hp, hq, mul_one]

/-- The value of `quatFromEulerAngles`, with the quarter angles written out. -/
theorem quatFromEulerAngles_eq (pitch yaw roll : ℝ) :
    quatFromEulerAngles pitch yaw roll
      = { w := Real.cos (pitch * 0.5 * 0.5) * Real.cos (yaw * 0.5 * 0.5) * Real.cos (roll * 0.5 * 0.5)
            + Real.sin (pitch * 0.5 * 0.5) * Real.sin (yaw * 0.5 * 0.5) * Real.sin (roll * 0.5 * 0.5)
          x := Real.sin (pitch * 0.5 * 0.5) * Real.cos (yaw * 0.5 * 0.5) * Real.cos (roll * 0.5 * 0.5)
            - Real.cos (pitch * 0.5 * 0.5) * Real.sin (yaw * 0.5 * 0.5) * Real.sin (roll * 0.5 * 0.5)
          y := Real.cos (pitch * 0.5 * 0.5) * Real.sin (yaw * 0.5 * 0.5) * Real.cos (roll * 0.5 * 0.5)
            + Real.sin (pitch * 0.5 * 0.5) * Real.cos (yaw * 0.5 * 0.5) * Real.sin (roll * 0.5 * 0.5)
          z := Real.cos (pitch * 0.5 * 0.5) * Real.cos (yaw * 0.5 * 0.5) * Real.sin (roll * 0.5 * 0.5)
            - Real.sin (pitch * 0.5 * 0.5) * Real.sin (yaw * 0.5 * 0.5) * Real.cos (roll * 0.5 * 0.5) } :=
  rfl

theorem quatFromEulerAngles_dot_self (pitch yaw roll : ℝ) :
    glm.quat.dot (quatFromEulerAngles pitch yaw roll) (quatFromEulerAngles pitch yaw roll) = 1 := by
  rw [quatFromEulerAngles_eq]
  simp only [glm.quat.dot]
  have hx := Real.sin_sq_add_cos_sq (pitch * 0.5 * 0.5)
  have hy := Real.sin_sq_add_cos_sq (yaw * 0.5 * 0.5)
  have hz := Real.sin_sq_add_cos_sq (roll * 0.5 * 0.5)
  linear_combination
    ((Real.sin (yaw * 0.5 * 0.5) ^ 2 + Real.cos (yaw * 0.5 * 0.5) ^ 2)
      * (Real.sin (roll * 0.5 * 0.5) ^ 2 + Real.cos (roll * 0.5 * 0.5) ^ 2)) * hx
    + (Real.sin (roll * 0.5 * 0.5) ^ 2 + Real.cos (roll * 0.5 * 0.5) ^ 2) * hy + hz

theorem quatFromEulerAngles_unit (pitch yaw roll : ℝ) :
    glm.quat.length (quatFromEulerAngles pitch yaw roll) = 1 := by
  rw [glm.quat.length_eq_one_iff]
  exact quatFromEulerAngles_dot_self pitch yaw roll

/-- The source function in terms of the closed form of the specification: the arguments
reach the closed form halved. -/
theorem quatFromEulerAngles_eq_spec_half (pitch yaw roll : ℝ) :
    quatFromEulerAngles pitch yaw roll
      = quatFromEulerAnglesSpec (pitch / 2) (yaw / 2) (roll / 2) := by
  rw [quatFromEulerAngles_eq]
  have e : ∀ t : ℝ, t * 0.5 * 0.5 = t / 2 / 2 := fun t => by ring
  simp only [quatFromEulerAnglesSpec, e]

/-- Two pure rolls compose to the roll by the sum of the angles. -/
theorem quatFromEulerAngles_roll_mul (a b : ℝ) :
    glm.quat.mul (quatFromEulerAngles 0 0 a) (quatFromEulerAngles 0 0 b)
      = quatFromEulerAngles 0 0 (a + b) := by
  have e : (a + b) * 0.5 * 0.5 = a * 0.5 * 0.5 + b * 0.5 * 0.5 := by ring
  rw [quatFromEulerAngles_eq, quatFromEulerAngles_eq, quatFromEulerAngles_eq, e,
    Real.cos_add, Real.sin_add]
  ext
  all_goals simp [glm.quat.mul]
  all_goals ring

/-- The tangent the constructor stores differs from the one `recalcProjection` stores for
the same field of view: 32.5 radians is 10 pi plus about 1.084, while 65 degrees is about
1.134 radians. -/
theorem tan_half_degrees_ne_tan_radians :
    Real.tan (kDefaultFov * 0.5) ≠ Real.tan (glm.radians kDefaultFov) := by
  intro h
  have hgt := Real.pi_gt_d2
  have hlt := Real.pi_lt_d2
  have hper : Real.tan (kDefaultFov * 0.5 - (10 : ℕ) * Real.pi) = Real.tan (kDefaultFov * 0.5) :=
    Real.tan_periodic.sub_nat_mul_eq 10
  rw [← hper] at h
  have hmem1 : kDefaultFov * 0.5 - (10 : ℕ) * Real.pi ∈ Set.Ioo (-(Real.pi / 2)) (Real.pi / 2) := by
    unfold kDefaultFov
    constructor <;> norm_num <;> linarith
  have hmem2 : glm.radians kDefaultFov ∈ Set.Ioo (-(Real.pi / 2)) (Real.pi / 2) := by
    unfold kDefaultFov glm.radians
    constructor <;> norm_num <;> linarith
  have heq := Real.injOn_tan hmem1 hmem2 h
  unfold kDefaultFov glm.radians at heq
  norm_num at heq
  linarith

/-- The yaw angle of a mouse move after `recalcProjection`. -/
theorem Camera.yawAngle_recalcProjection (c : Camera) (d : ℝ) :
    c.recalcProjection.yawAngle d
      = c.m_mouseSensitivity
        * Real.arctan (2 * d * Real.tan (glm.radians c.m_fovDegrees) / c.m_width) := rfl

/-- The pitch angle of a mouse move after `recalcProjection`: the height cancels. -/
theorem Camera.pitchAngle_recalcProjection (c : Camera) (d : ℝ) (hh : c.m_height ≠ 0) :
    c.recalcProjection.pitchAngle d
      = c.m_mouseSensitivity
        * Real.arctan (2 * d * Real.tan (glm.radians c.m_fovDegrees) / c.m_width) := by
  have e : 2 * d * (Real.tan (glm.radians c.m_fovDegrees) * c.m_height / c.m_width) / c.m_height
      = 2 * d * Real.tan (glm.radians c.m_fovDegrees) / c.m_width := by
    have e1 : 2 * d * (Real.tan (glm.radians c.m_fovDegrees) * c.m_height / c.m_width)
        / c.m_height
        = 2 * d * Real.tan (glm.radians c.m_fovDegrees) / c.m_width * c.m_height
          / c.m_height := by ring
    rw [e1, mul_div_cancel_right₀ _ hh]
  show c.m_mouseSensitivity
      * Real.arctan (2 * d * (Real.tan (glm.radians c.m_fovDegrees) * c.m_height / c.m_width)
        / c.m_height) = _
  rw [e]

theorem glm.radians_forty_five : glm.radians 45 = Real.pi / 4 := by
  unfold glm.radians
  ring

/-- The orientation that `processMouseMovement` stores, in terms of the two angles. -/
theorem Camera.processMouseMovement_orientation_eq (c : Camera) (dx dy : ℝ) :
    (c.processMouseMovement dx dy).m_orientation
      = glm.normalize (glm.quat.mul (quatFromEulerAngles (c.pitchAngle dy) (c.yawAngle dx) 0)
          c.m_orientation) := by
  have h0 : (0.0 : ℝ) = 0 := by norm_num
  simp only [Camera.processMouseMovement, Camera.pitchAngle, Camera.yawAngle, h0]

/-- The orientation that `update` stores, in terms of the roll angle. -/
theorem Camera.update_orientation_rollAngle (c : Camera) (curTime : ℝ) :
    (c.update curTime).m_orientation
      = glm.normalize (glm.quat.mul
          (quatFromEulerAngles 0 0 (c.rollAngle (curTime - c.m_lastUpdateTime)))
          c.m_orientation) := rfl

/-- The normalization after a rotation step does nothing to a unit orientation. -/
theorem glm.normalize_step (d q : glm.quat) (hd : glm.quat.length d = 1)
    (hq : glm.quat.length q = 1) : glm.normalize (glm.quat.mul d q) = glm.quat.mul d q :=
  glm.normalize_of_length_eq_one _ (glm.quat.length_mul_of_unit d q hd hq)

theorem Camera.update_orientation_of_unit (c : Camera) (curTime : ℝ)
    (hunit : glm.quat.length c.m_orientation = 1) :
    (c.update curTime).m_orientation
      = glm.quat.mul (quatFromEulerAngles 0 0 (c.rollAngle (curTime - c.m_lastUpdateTime)))
          c.m_orientation := by
  rw [Camera.update_orientation_rollAngle,
    glm.normalize_step _ _ (quatFromEulerAngles_unit _ _ _) hunit]

/-- The roll angle is additive in the elapsed time. -/
theorem Camera.rollAngle_add (c : Camera) (s t : ℝ) :
    c.rollAngle s + c.rollAngle t = c.rollAngle (s + t) := by
  simp only [Camera.rollAngle]
  split_ifs <;> ring

/-- Frame splitting for the roll: with an orientation of length 1, the orientation after two
calls of `update` is the orientation after the second call alone. -/
theorem Camera.update_update_orientation (c : Camera) (t1 t2 : ℝ)
    (hunit : glm.quat.length c.m_orientation = 1) :
    ((c.update t1).update t2).m_orientation = (c.update t2).m_orientation := by
  have hunit1 : glm.quat.length (c.update t1).m_orientation = 1 :=
    Camera.length_orientation_update c t1
  have hroll : ∀ x : ℝ, (c.update t1).rollAngle x = c.rollAngle x := fun _ => rfl
  have hl : (c.update t1).m_lastUpdateTime = t1 := rfl
  rw [Camera.update_orientation_of_unit (c.update t1) t2 hunit1, hroll, hl,
    Camera.update_orientation_of_unit c t1 hunit, Camera.update_orientation_of_unit c t2 hunit,
    ← glm.quat.mul_assoc, quatFromEulerAngles_roll_mul, Camera.rollAngle_add]
  congr 3
  ring

/-- The matrix `mat4_cast (q) * translate (mat4 (1), -p)` of the default pose is the
identity matrix. -/
theorem viewOf_default : viewOf ⟨1.0, 0.0, 0.0, 0.0⟩ (glm.vec3.splat 0.0) = glm.mat4.diag 1.0 := by
  have h : ∀ c r : Fin 4,
      viewOf ⟨1.0, 0.0, 0.0, 0.0⟩ (glm.vec3.splat 0.0) c r = glm.mat4.diag 1.0 c r := by
    intro c r
    fin_cases c <;> fin_cases r <;>
      simp +decide [viewOf, glm.mat4.mul, glm.mat4_cast, glm.mat4.ofMat3, glm.mat3_cast,
        glm.translate, glm.mat4.diag, glm.vec3.neg, glm.vec3.splat] <;>
      norm_num
  funext c r
  exact h c r

theorem Call.view_apply (c : Camera) (call : Call)
    (h : c.m_view = viewOf c.m_orientation c.m_position) :
    (call.apply c).m_view = viewOf (call.apply c).m_orientation (call.apply c).m_position := by
  cases call with
  | setFovDegrees f => exact h
  | setScreenSize w h2 => exact h
  | setKeyState key pressed =>
    simp only [Call.apply, Camera.setKeyState]
    split_ifs <;> exact h
  | resetKeyState => exact h
  | processMouseMovement dx dy => rfl
  | update curTime => rfl

theorem runCalls_keeps_view (calls : List Call) (c : Camera)
    (h : c.m_view = viewOf c.m_orientation c.m_position) :
    (runCalls c calls).m_view
      = viewOf (runCalls c calls).m_orientation (runCalls c calls).m_position := by
  induction calls generalizing c with
  | nil => exact h
  | cons call rest ih =>
    simp only [runCalls, List.foldl_cons]
    exact ih (call.apply c) (Call.view_apply c call h)

/-! ## Auxiliary facts on a viewport of width or height 0 -/

theorem atanfQuot_of_ne_zero (a b : ℝ) (hb : b ≠ 0) :
    atanfQuot a b = some (Real.arctan (a / b)) := by
  simp [atanfQuot, hb]

theorem atanfQuot_zero_zero : atanfQuot 0 0 = none := by
  simp [atanfQuot]

/-- For a width and a height other than 0 no quotient by zero is computed, and the method
with the float quotients is the method in real arithmetic. -/
theorem Camera.processMouseMovementIeee_eq (c : Camera) (dx dy : ℝ)
    (hw : c.m_width ≠ 0) (hh : c.m_height ≠ 0) :
    c.processMouseMovementIeee dx dy = some (c.processMouseMovement dx dy) := by
  simp only [Camera.processMouseMovementIeee, atanfQuot_of_ne_zero _ _ hw,
    atanfQuot_of_ne_zero _ _ hh, Camera.processMouseMovement]

/-- With a height 0 the pitch of `processMouseMovement (dx, 0)` is the `atanf` of `0 / 0`:
the orientation stored is NaN. -/
theorem Camera.processMouseMovementIeee_of_height_zero (c : Camera) (dx : ℝ)
    (hh : c.m_height = 0) : c.processMouseMovementIeee dx 0 = none := by
  have hp : atanfQuot (2 * 0 * c.m_tanAY2) c.m_height = none := by
    rw [hh, mul_zero, zero_mul]
    exact atanfQuot_zero_zero
  simp only [Camera.processMouseMovementIeee, hp]
  cases atanfQuot (2 * dx * c.m_tanAX2) c.m_width <;> rfl

theorem zeroHeightViewport_height : zeroHeightViewport.m_height = 0 := by
  simp [zeroHeightViewport, Camera.setScreenSize, Camera.recalcProjection]

theorem Call.viewport_apply (c : Camera) (call : Call) (hcall : call.viewportNonzero)
    (h : c.m_width ≠ 0 ∧ c.m_height ≠ 0) :
    (call.apply c).m_width ≠ 0 ∧ (call.apply c).m_height ≠ 0 := by
  cases call with
  | setFovDegrees f => exact h
  | setScreenSize w h2 =>
    obtain ⟨hw, hh⟩ := hcall
    have hw2 : ((w : Int) : ℝ) ≠ 0 := by exact_mod_cast hw
    have hh2 : ((h2 : Int) : ℝ) ≠ 0 := by exact_mod_cast hh
    exact ⟨hw2, hh2⟩
  | setKeyState key pressed =>
    simp only [Call.apply, Camera.setKeyState]
    split_ifs <;> exact h
  | resetKeyState => exact h
  | processMouseMovement dx dy => exact h
  | update curTime => exact h

theorem runCalls_keeps_viewport (calls : List Call) (c : Camera)
    (hcalls : ∀ call ∈ calls, call.viewportNonzero)
    (h : c.m_width ≠ 0 ∧ c.m_height ≠ 0) :
    (runCalls c calls).m_width ≠ 0 ∧ (runCalls c calls).m_height ≠ 0 := by
  induction calls generalizing c with
  | nil => exact h
  | cons call rest ih =>
    simp only [runCalls, List.foldl_cons]
    exact ih (call.apply c) (fun x hx => hcalls x (List.mem_cons_of_mem _ hx))
      (Call.viewport_apply c call (hcalls call (List.mem_cons_self _ _)) h)

theorem Camera.ctor_viewport : Camera.ctor.m_width ≠ 0 ∧ Camera.ctor.m_height ≠ 0 := by
  constructor <;> norm_num [Camera.ctor, kDefaultAspectRatio]

/-! ## Key state -/

/-- C1: for every camera, every value of `pressed` and each of the 8 recognized key codes,
`setKeyState` returns true and the camera after the call is the camera before it with the
one flag of that code overwritten by `pressed` (W Forward, S Back, A Left, D Right, C Down,
Space Up, Q RollCCW, E RollCW); the other flags and all other members are the old ones. -/
theorem Camera.setKeyState_recognized (c : Camera) (pressed : Bool) :
    c.setKeyState Qt.Key_W pressed
        = (true, { c with m_keyPressed := Function.update c.m_keyPressed Key.KeyForward pressed })
    ∧ c.setKeyState Qt.Key_S pressed
        = (true, { c with m_keyPressed := Function.update c.m_keyPressed Key.KeyBack pressed })
    ∧ c.setKeyState Qt.Key_A pressed
        = (true, { c with m_keyPressed := Function.update c.m_keyPressed Key.KeyLeft pressed })
    ∧ c.setKeyState Qt.Key_D pressed
        = (true, { c with m_keyPressed := Function.update c.m_keyPressed Key.KeyRight pressed })
    ∧ c.setKeyState Qt.Key_C pressed
        = (true, { c with m_keyPressed := Function.update c.m_keyPressed Key.KeyDown pressed })
    ∧ c.setKeyState Qt.Key_Space pressed
        = (true, { c with m_keyPressed := Function.update c.m_keyPressed Key.KeyUp pressed })
    ∧ c.setKeyState Qt.Key_Q pressed
        = (true, { c with m_keyPressed := Function.update c.m_keyPressed Key.KeyRollCCW pressed })
    ∧ c.setKeyState Qt.Key_E pressed
        = (true, { c with m_keyPressed := Function.update c.m_keyPressed Key.KeyRollCW pressed }) := by
  refine ⟨?_, ?_, ?_, ?_, ?_, ?_, ?_, ?_⟩ <;>
    simp [Camera.setKeyState, Qt.Key_W, Qt.Key_S, Qt.Key_A, Qt.Key_D, Qt.Key_C, Qt.Key_Space,
      Qt.Key_Q, Qt.Key_E]

/-- C2: for every camera, every value of `pressed` and every integer key code other than
W, S, A, D, C, Space, Q, E, `setKeyState` returns false and the camera after the call is
the camera before it, whole; and `setKeyState` returns true exactly for those 8 codes. -/
theorem Camera.setKeyState_unrecognized (c : Camera) (key : Int) (pressed : Bool) :
    (¬ (key = Qt.Key_W ∨ key = Qt.Key_S ∨ key = Qt.Key_A ∨ key = Qt.Key_D ∨ key = Qt.Key_C
          ∨ key = Qt.Key_Space ∨ key = Qt.Key_Q ∨ key = Qt.Key_E) →
      c.setKeyState key pressed = (false, c))
    ∧ ((c.setKeyState key pressed).1 = true ↔
        (key = Qt.Key_W ∨ key = Qt.Key_S ∨ key = Qt.Key_A ∨ key = Qt.Key_D ∨ key = Qt.Key_C
          ∨ key = Qt.Key_Space ∨ key = Qt.Key_Q ∨ key = Qt.Key_E)) := by
  unfold Camera.setKeyState
  constructor
  · intro h
    simp only [not_or] at h
    obtain ⟨h1, h2, h3, h4, h5, h6, h7, h8⟩ := h
    simp [h1, h2, h3, h4, h5, h6, h7, h8]
  · split_ifs with h1 h2 h3 h4 h5 h6 h7 h8 <;> simp [*]

/-- Witness for C2: the key code 0 on the default camera. -/
theorem Camera.setKeyState_unrecognized_witness :
    ¬ ((0 : Int) = Qt.Key_W ∨ (0 : Int) = Qt.Key_S ∨ (0 : Int) = Qt.Key_A ∨ (0 : Int) = Qt.Key_D
        ∨ (0 : Int) = Qt.Key_C ∨ (0 : Int) = Qt.Key_Space ∨ (0 : Int) = Qt.Key_Q
        ∨ (0 : Int) = Qt.Key_E)
    ∧ Camera.ctor.setKeyState 0 true = (false, Camera.ctor) :=
  ⟨by decide, (Camera.setKeyState_unrecognized Camera.ctor 0 true).1 (by decide)⟩

/-! ## Orientation stays normalized -/

/-- C3, as stated, fails on the call sequence setScreenSize (800, 0),
processMouseMovement (0, 0) from the default-constructed camera: the first call leaves a
height 0 and an orientation of length 1, the second computes its pitch as the `atanf` of
`0 / 0`, which is NaN, and stores a NaN orientation; no orientation of length 1 results. -/
theorem orientation_nan_counterexample :
    (runCalls Camera.ctor [Call.setScreenSize 800 0]).m_height = 0
    ∧ glm.quat.length (runCalls Camera.ctor [Call.setScreenSize 800 0]).m_orientation = 1
    ∧ atanfQuot (2 * 0 * (runCalls Camera.ctor [Call.setScreenSize 800 0]).m_tanAY2)
        (runCalls Camera.ctor [Call.setScreenSize 800 0]).m_height = none
    ∧ (runCalls Camera.ctor [Call.setScreenSize 800 0]).processMouseMovementIeee 0 0 = none
    ∧ ¬ ∃ c' : Camera,
        (runCalls Camera.ctor [Call.setScreenSize 800 0]).processMouseMovementIeee 0 0 = some c'
        ∧ glm.quat.length c'.m_orientation = 1 := by
  have hh : (runCalls Camera.ctor [Call.setScreenSize 800 0]).m_height = 0 :=
    zeroHeightViewport_height
  have hnone := Camera.processMouseMovementIeee_of_height_zero
    (runCalls Camera.ctor [Call.setScreenSize 800 0]) 0 hh
  refine ⟨hh, Camera.ctor_orientation_unit, ?_, hnone, ?_⟩
  · rw [hh, mul_zero, zero_mul]
    exact atanfQuot_zero_zero
  · rintro ⟨c', hc', -⟩
    rw [hnone] at hc'
    exact Option.noConfusion hc'

/-- C3, amended: in every state reached from the default-constructed camera by a finite
sequence of calls of processMouseMovement, update (any clock reading, hence any elapsed
time), setKeyState, resetKeyState, setFovDegrees and setScreenSize (w, h) with w and h other
than 0, the orientation quaternion has length exactly 1 over the reals. As the hypothesis
holds for every initial part of the sequence, this is so after every call of it. In these
states width and height are not 0, so that no call of processMouseMovement divides by
zero: the method with the float quotients is the method in real arithmetic. -/
theorem length_orientation_runCalls (calls : List Call)
    (hcalls : ∀ call ∈ calls, call.viewportNonzero) :
    glm.quat.length (runCalls Camera.ctor calls).m_orientation = 1
    ∧ (runCalls Camera.ctor calls).m_width ≠ 0
    ∧ (runCalls Camera.ctor calls).m_height ≠ 0
    ∧ ∀ dx dy : ℝ, (runCalls Camera.ctor calls).processMouseMovementIeee dx dy
        = some ((runCalls Camera.ctor calls).processMouseMovement dx dy) := by
  obtain ⟨hw, hh⟩ := runCalls_keeps_viewport calls Camera.ctor hcalls Camera.ctor_viewport
  exact ⟨runCalls_keeps_unit_orientation calls Camera.ctor Camera.ctor_orientation_unit, hw, hh,
    fun dx dy => Camera.processMouseMovementIeee_eq _ dx dy hw hh⟩

/-- Witness for C3, amended: setScreenSize (800, 600), processMouseMovement (3, 4),
update at the clock reading 1. -/
theorem length_orientation_runCalls_witness :
    (∀ call ∈ [Call.setScreenSize 800 600, Call.processMouseMovement 3 4, Call.update 1],
        call.viewportNonzero)
    ∧ glm.quat.length (runCalls Camera.ctor
        [Call.setScreenSize 800 600, Call.processMouseMovement 3 4, Call.update 1]).m_orientation
      = 1 :=
  have h : ∀ call ∈ [Call.setScreenSize 800 600, Call.processMouseMovement 3 4, Call.update 1],
      call.viewportNonzero := by
    intro call hcall
    simp only [List.mem_cons, List.mem_singleton, List.not_mem_nil, or_false] at hcall
    rcases hcall with rfl | rfl | rfl <;> simp [Call.viewportNonzero]
  ⟨h, (length_orientation_runCalls _ h).1⟩

/-! ## Integration of motion by update -/

/-- C4: for every camera with an orientation of length 1, every elapsed time T and every
key state in which no roll key is pressed and only keys of one translation axis (Left and
Right, or Up and Down, or Forward and Back) may be pressed, the position after two
consecutive calls of update with elapsed time T / 2 each equals the position after one call
with elapsed time T. -/
theorem Camera.update_position_two_half_steps (c : Camera) (T : ℝ)
    (hunit : glm.quat.length c.m_orientation = 1)
    (hcw : c.m_keyPressed Key.KeyRollCW = false)
    (hccw : c.m_keyPressed Key.KeyRollCCW = false)
    (haxis :
      (c.m_keyPressed Key.KeyUp = false ∧ c.m_keyPressed Key.KeyDown = false
        ∧ c.m_keyPressed Key.KeyForward = false ∧ c.m_keyPressed Key.KeyBack = false)
      ∨ (c.m_keyPressed Key.KeyLeft = false ∧ c.m_keyPressed Key.KeyRight = false
        ∧ c.m_keyPressed Key.KeyForward = false ∧ c.m_keyPressed Key.KeyBack = false)
      ∨ (c.m_keyPressed Key.KeyLeft = false ∧ c.m_keyPressed Key.KeyRight = false
        ∧ c.m_keyPressed Key.KeyUp = false ∧ c.m_keyPressed Key.KeyDown = false)) :
    ((c.updateElapsed (T / 2)).updateElapsed (T / 2)).m_position
      = (c.updateElapsed T).m_position := by
  have hroll : c.m_keyPressed Key.KeyRollCW = c.m_keyPressed Key.KeyRollCCW := by
    rw [hcw, hccw]
  have hclock : (c.updateElapsed (T / 2)).m_lastUpdateTime + T / 2 = c.m_lastUpdateTime + T := by
    show c.m_lastUpdateTime + T / 2 + T / 2 = c.m_lastUpdateTime + T
    ring
  rcases haxis with _ | _ | _ <;>
    · unfold Camera.updateElapsed at hclock ⊢
      rw [hclock]
      exact Camera.update_update_position c _ _ hunit hroll

/-- Witness for C4: the default camera with A (Left) held, T = 2. -/
theorem Camera.update_position_two_half_steps_witness :
    glm.quat.length (Camera.ctor.setKeyState Qt.Key_A true).2.m_orientation = 1
    ∧ (Camera.ctor.setKeyState Qt.Key_A true).2.m_keyPressed Key.KeyLeft = true
    ∧ (((Camera.ctor.setKeyState Qt.Key_A true).2.updateElapsed (2 / 2)).updateElapsed
        (2 / 2)).m_position
      = ((Camera.ctor.setKeyState Qt.Key_A true).2.updateElapsed 2).m_position :=
  ⟨Camera.ctor_orientation_unit, by decide,
    Camera.update_position_two_half_steps (Camera.ctor.setKeyState Qt.Key_A true).2 2
      Camera.ctor_orientation_unit (by decide) (by decide)
      (Or.inl ⟨by decide, by decide, by decide, by decide⟩)⟩

/-- C5: for every camera and every clock reading (hence every elapsed time), if both keys
of an opposing pair (Forward and Back, Left and Right, Up and Down, RollCW and RollCCW) are
pressed, update yields the same position and the same orientation as it does from the same
camera with both keys of the pair released: the pair contributes no displacement and no
roll. -/
theorem Camera.update_opposing_pair_cancels (c : Camera) (curTime : ℝ) (k1 k2 : Key)
    (hpair : (k1 = Key.KeyForward ∧ k2 = Key.KeyBack) ∨ (k1 = Key.KeyLeft ∧ k2 = Key.KeyRight)
      ∨ (k1 = Key.KeyUp ∧ k2 = Key.KeyDown) ∨ (k1 = Key.KeyRollCW ∧ k2 = Key.KeyRollCCW))
    (h1 : c.m_keyPressed k1 = true) (h2 : c.m_keyPressed k2 = true) :
    (c.update curTime).m_position = ((c.releasePair k1 k2).update curTime).m_position
    ∧ (c.update curTime).m_orientation = ((c.releasePair k1 k2).update curTime).m_orientation := by
  rcases hpair with ⟨e1, e2⟩ | ⟨e1, e2⟩ | ⟨e1, e2⟩ | ⟨e1, e2⟩ <;> subst e1 <;> subst e2 <;>
    simp [Camera.update_position_eq, Camera.update_orientation_eq, Camera.releasePair,
      Camera.right, Camera.up, Camera.dir, Function.update, h1, h2]

/-- Witness for C5: the default camera with W and S held, clock reading 1. -/
theorem Camera.update_opposing_pair_cancels_witness :
    ((Camera.ctor.setKeyState Qt.Key_W true).2.setKeyState Qt.Key_S true).2.m_keyPressed
        Key.KeyForward = true
    ∧ ((Camera.ctor.setKeyState Qt.Key_W true).2.setKeyState Qt.Key_S true).2.m_keyPressed
        Key.KeyBack = true
    ∧ ((((Camera.ctor.setKeyState Qt.Key_W true).2.setKeyState Qt.Key_S true).2.update
          1).m_position
        = (((((Camera.ctor.setKeyState Qt.Key_W true).2.setKeyState Qt.Key_S true).2).releasePair
            Key.KeyForward Key.KeyBack).update 1).m_position
      ∧ (((Camera.ctor.setKeyState Qt.Key_W true).2.setKeyState Qt.Key_S true).2.update
          1).m_orientation
        = (((((Camera.ctor.setKeyState Qt.Key_W true).2.setKeyState Qt.Key_S true).2).releasePair
            Key.KeyForward Key.KeyBack).update 1).m_orientation) :=
  ⟨by decide, by decide,
    Camera.update_opposing_pair_cancels
      ((Camera.ctor.setKeyState Qt.Key_W true).2.setKeyState Qt.Key_S true).2 1
      Key.KeyForward Key.KeyBack (Or.inl ⟨rfl, rfl⟩) (by decide) (by decide)⟩

/-- C6: for every camera with an orientation of length 1 and no key pressed, update with
elapsed time 0 leaves position and orientation as they are, and the view matrix it stores
is `mat4_cast (orientation) * translate (mat4 (1), -position)` for that same pose; a second
such update stores the identical view matrix. -/
theorem Camera.update_zero_input (c : Camera)
    (hunit : glm.quat.length c.m_orientation = 1)
    (hkeys : ∀ k : Key, c.m_keyPressed k = false) :
    (c.updateElapsed 0).m_position = c.m_position
    ∧ (c.updateElapsed 0).m_orientation = c.m_orientation
    ∧ (c.updateElapsed 0).m_view = viewOf c.m_orientation c.m_position
    ∧ ((c.updateElapsed 0).updateElapsed 0).m_view = (c.updateElapsed 0).m_view := by
  have hroll : c.m_keyPressed Key.KeyRollCW = c.m_keyPressed Key.KeyRollCCW := by
    rw [hkeys, hkeys]
  have step : ∀ d : Camera, glm.quat.length d.m_orientation = 1 →
      (∀ k : Key, d.m_keyPressed k = false) →
      (d.updateElapsed 0).m_position = d.m_position
        ∧ (d.updateElapsed 0).m_orientation = d.m_orientation := by
    intro d hd hk
    refine ⟨?_, ?_⟩
    · exact Camera.update_position_of_no_translation d _ (hk _) (hk _) (hk _) (hk _) (hk _)
        (hk _)
    · exact Camera.update_orientation_of_roll_balanced d _ hd (by rw [hk, hk])
  obtain ⟨hp, ho⟩ := step c hunit hkeys
  have hview : (c.updateElapsed 0).m_view = viewOf c.m_orientation c.m_position := by
    unfold Camera.updateElapsed at hp ho ⊢
    rw [Camera.update_view_eq, hp, ho]
  have hunit1 : glm.quat.length (c.updateElapsed 0).m_orientation = 1 := by rw [ho]; exact hunit
  obtain ⟨hp1, ho1⟩ := step (c.updateElapsed 0) hunit1 hkeys
  refine ⟨hp, ho, hview, ?_⟩
  rw [hview]
  unfold Camera.updateElapsed at hp1 ho1 hp ho ⊢
  rw [Camera.update_view_eq, hp1, ho1, hp, ho]

/-- Witness for C6: the default camera. -/
theorem Camera.update_zero_input_witness :
    glm.quat.length Camera.ctor.m_orientation = 1
    ∧ (∀ k : Key, Camera.ctor.m_keyPressed k = false)
    ∧ (Camera.ctor.updateElapsed 0).m_position = Camera.ctor.m_position
    ∧ (Camera.ctor.updateElapsed 0).m_orientation = Camera.ctor.m_orientation
    ∧ (Camera.ctor.updateElapsed 0).m_view
        = viewOf Camera.ctor.m_orientation Camera.ctor.m_position
    ∧ ((Camera.ctor.updateElapsed 0).updateElapsed 0).m_view
        = (Camera.ctor.updateElapsed 0).m_view :=
  ⟨Camera.ctor_orientation_unit, fun k => clearKeys_apply _ k,
    Camera.update_zero_input Camera.ctor Camera.ctor_orientation_unit
      (fun k => clearKeys_apply _ k)⟩

/-- C7: for every camera (in particular one in which all 8 keys were pressed through
setKeyState), after resetKeyState all 8 flags are false and no other member has changed; an
update that follows, at any clock reading and hence with any elapsed time, leaves the
position as it is and, when the orientation has length 1, leaves the orientation as it
is. -/
theorem Camera.resetKeyState_then_update (c : Camera) (curTime : ℝ) :
    (∀ k : Key, c.resetKeyState.m_keyPressed k = false)
    ∧ c.resetKeyState = { c with m_keyPressed := c.resetKeyState.m_keyPressed }
    ∧ (c.resetKeyState.update curTime).m_position = c.m_position
    ∧ (glm.quat.length c.m_orientation = 1 →
        (c.resetKeyState.update curTime).m_orientation = c.m_orientation) := by
  have hk : ∀ k : Key, c.resetKeyState.m_keyPressed k = false := fun k => clearKeys_apply _ k
  refine ⟨hk, rfl, ?_, ?_⟩
  · exact Camera.update_position_of_no_translation c.resetKeyState curTime (hk _) (hk _)
      (hk _) (hk _) (hk _) (hk _)
  · intro hunit
    exact Camera.update_orientation_of_roll_balanced c.resetKeyState curTime hunit
      (by rw [hk, hk])

/-- Witness for C7: the default camera after all 8 keys were pressed, clock reading 1. -/
theorem Camera.resetKeyState_then_update_witness :
    (∀ k : Key, allKeysPressed.m_keyPressed k = true)
    ∧ glm.quat.length allKeysPressed.m_orientation = 1
    ∧ (∀ k : Key, allKeysPressed.resetKeyState.m_keyPressed k = false)
    ∧ (allKeysPressed.resetKeyState.update 1).m_position = allKeysPressed.m_position
    ∧ (allKeysPressed.resetKeyState.update 1).m_orientation = allKeysPressed.m_orientation :=
  ⟨fun k => by cases k <;> decide, Camera.ctor_orientation_unit,
    (Camera.resetKeyState_then_update allKeysPressed 1).1,
    (Camera.resetKeyState_then_update allKeysPressed 1).2.2.1,
    (Camera.resetKeyState_then_update allKeysPressed 1).2.2.2 Camera.ctor_orientation_unit⟩

/-- C8, as stated, fails on a camera whose forward speed is negative: with the default
orientation, only Forward pressed, forward speed -1 and elapsed time 1, the displacement has
length 1, while `forwardSpeed * dt` is -1. -/
theorem Camera.update_forward_length_counterexample :
    glm.quat.length forwardHeldReversed.m_orientation = 1
    ∧ forwardHeldReversed.m_keyPressed Key.KeyForward = true
    ∧ (∀ k : Key, k ≠ Key.KeyForward → forwardHeldReversed.m_keyPressed k = false)
    ∧ (0 : ℝ) ≤ 1
    ∧ glm.vec3.length
        (glm.vec3.sub (forwardHeldReversed.updateElapsed 1).m_position
          forwardHeldReversed.m_position) = 1
    ∧ forwardHeldReversed.m_forwardSpeed * 1 = -1
    ∧ glm.vec3.length
        (glm.vec3.sub (forwardHeldReversed.updateElapsed 1).m_position
          forwardHeldReversed.m_position) ≠ forwardHeldReversed.m_forwardSpeed * 1 := by
  have hunit : glm.quat.length forwardHeldReversed.m_orientation = 1 :=
    Camera.ctor_orientation_unit
  have hfwd : forwardHeldReversed.m_keyPressed Key.KeyForward = true := by decide
  have hrest : ∀ k : Key, k ≠ Key.KeyForward → forwardHeldReversed.m_keyPressed k = false := by
    intro k hk
    cases k <;> first | exact absurd rfl hk | decide
  have hlen : glm.vec3.length
      (glm.vec3.sub (forwardHeldReversed.updateElapsed 1).m_position
        forwardHeldReversed.m_position) = 1 := by
    unfold Camera.updateElapsed
    rw [Camera.update_displacement_forward_only _ _ hfwd hrest,
      glm.vec3.length_smul _ _ (Camera.dir_dot_self _ hunit)]
    norm_num [forwardHeldReversed]
  have hspeed : forwardHeldReversed.m_forwardSpeed * 1 = -1 := by
    norm_num [forwardHeldReversed]
  refine ⟨hunit, hfwd, hrest, zero_le_one, hlen, hspeed, ?_⟩
  rw [hlen, hspeed]
  norm_num

/-- C8, amended: for every camera with an orientation of length 1 in which Forward is the
only key pressed, and every elapsed time dt >= 0, update displaces the position by the
vector `-(forwardSpeed * dt) * dir`, whose Euclidean length is `|forwardSpeed| * dt`, that
is `forwardSpeed * dt` whenever `forwardSpeed >= 0`; the orientation is unchanged. -/
theorem Camera.update_forward_only (c : Camera) (dt : ℝ)
    (hunit : glm.quat.length c.m_orientation = 1)
    (hfwd : c.m_keyPressed Key.KeyForward = true)
    (hrest : ∀ k : Key, k ≠ Key.KeyForward → c.m_keyPressed k = false)
    (hdt : 0 ≤ dt) :
    glm.vec3.sub (c.updateElapsed dt).m_position c.m_position
      = glm.vec3.smul (-(c.m_forwardSpeed * dt)) c.dir
    ∧ glm.vec3.length (glm.vec3.sub (c.updateElapsed dt).m_position c.m_position)
      = |c.m_forwardSpeed| * dt
    ∧ (0 ≤ c.m_forwardSpeed →
        glm.vec3.length (glm.vec3.sub (c.updateElapsed dt).m_position c.m_position)
          = c.m_forwardSpeed * dt)
    ∧ (c.updateElapsed dt).m_orientation = c.m_orientation := by
  have hdisp : glm.vec3.sub (c.updateElapsed dt).m_position c.m_position
      = glm.vec3.smul (-(c.m_forwardSpeed * dt)) c.dir := by
    unfold Camera.updateElapsed
    rw [Camera.update_displacement_forward_only c _ hfwd hrest, add_sub_cancel_left]
  have hlen : glm.vec3.length (glm.vec3.sub (c.updateElapsed dt).m_position c.m_position)
      = |c.m_forwardSpeed| * dt := by
    rw [hdisp, glm.vec3.length_smul _ _ (Camera.dir_dot_self c hunit), abs_neg, abs_mul,
      abs_of_nonneg hdt]
  refine ⟨hdisp, hlen, ?_, ?_⟩
  · intro hspeed
    rw [hlen, abs_of_nonneg hspeed]
  · exact Camera.update_orientation_of_roll_balanced c _ hunit
      (by rw [hrest Key.KeyRollCW (by decide), hrest Key.KeyRollCCW (by decide)])

/-- Witness for C8: the default camera with W held and elapsed time 0.1; the forward speed
is 10, the position goes from (0, 0, 0) to (0, 0, -1), a displacement of length 1. -/
theorem Camera.update_forward_only_witness :
    glm.quat.length forwardHeld.m_orientation = 1
    ∧ forwardHeld.m_keyPressed Key.KeyForward = true
    ∧ (∀ k : Key, k ≠ Key.KeyForward → forwardHeld.m_keyPressed k = false)
    ∧ (0 : ℝ) ≤ 0.1
    ∧ forwardHeld.m_position = ⟨0, 0, 0⟩
    ∧ (forwardHeld.updateElapsed 0.1).m_position = ⟨0, 0, -1⟩
    ∧ glm.vec3.length (glm.vec3.sub (forwardHeld.updateElapsed 0.1).m_position
        forwardHeld.m_position) = 1
    ∧ (forwardHeld.updateElapsed 0.1).m_orientation = forwardHeld.m_orientation := by
  have hunit : glm.quat.length forwardHeld.m_orientation = 1 := Camera.ctor_orientation_unit
  have hfwd : forwardHeld.m_keyPressed Key.KeyForward = true := by decide
  have hrest : ∀ k : Key, k ≠ Key.KeyForward → forwardHeld.m_keyPressed k = false := by
    intro k hk
    cases k <;> first | exact absurd rfl hk | decide
  have hdt : (0 : ℝ) ≤ 0.1 := by norm_num
  obtain ⟨hdisp, hlen, -, horient⟩ :=
    Camera.update_forward_only forwardHeld 0.1 hunit hfwd hrest hdt
  have hpos0 : forwardHeld.m_position = ⟨0, 0, 0⟩ := by
    norm_num [forwardHeld, Camera.setKeyState, Qt.Key_W, Camera.ctor, glm.vec3.splat]
  have hspeed : forwardHeld.m_forwardSpeed = 10 := by
    norm_num [forwardHeld, Camera.setKeyState, Qt.Key_W, Camera.ctor, kDefaultForwardSpeed]
  have hdir : forwardHeld.dir = ⟨0, 0, 1⟩ := by
    ext <;> norm_num [forwardHeld, Camera.setKeyState, Qt.Key_W, Camera.ctor, Camera.dir,
      glm.mat3_cast]
  refine ⟨hunit, hfwd, hrest, hdt, hpos0, ?_, ?_, horient⟩
  · rw [hpos0, hspeed, hdir] at hdisp
    have hx := congrArg glm.vec3.x hdisp
    have hy := congrArg glm.vec3.y hdisp
    have hz := congrArg glm.vec3.z hdisp
    simp only [glm.vec3.sub, glm.vec3.smul] at hx hy hz
    ext
    · show (forwardHeld.updateElapsed 0.1).m_position.x = 0
      linarith
    · show (forwardHeld.updateElapsed 0.1).m_position.y = 0
      linarith
    · show (forwardHeld.updateElapsed 0.1).m_position.z = -1
      norm_num at hz
      linarith
  · rw [hlen, hspeed]
    norm_num

/-! ## Projection parameters -/

/-- C9: for every camera, after setFovDegrees (f) the cached tangents are
`m_tanAX2 = tan (radians (f))` and `m_tanAY2 = m_tanAX2 * height / width` for the current
viewport, which the call does not change; after setScreenSize (w, h) with w nonzero they are
`m_tanAX2 = tan (radians (fovDegrees))` and `m_tanAY2 = m_tanAX2 * h / w` for the current
field of view, which the call does not change. Over the reals the equations hold as well
for w = 0, with the convention that a quotient by zero is zero. -/
theorem Camera.tangents_after_recompute (c : Camera) (f : ℝ) (w h : Int) (_hw : w ≠ 0) :
    ((c.setFovDegrees f).m_tanAX2 = Real.tan (glm.radians f)
      ∧ (c.setFovDegrees f).m_tanAY2
          = (c.setFovDegrees f).m_tanAX2 * (c.setFovDegrees f).m_height
            / (c.setFovDegrees f).m_width
      ∧ (c.setFovDegrees f).m_fovDegrees = f
      ∧ (c.setFovDegrees f).m_width = c.m_width
      ∧ (c.setFovDegrees f).m_height = c.m_height)
    ∧ ((c.setScreenSize w h).m_tanAX2 = Real.tan (glm.radians (c.setScreenSize w h).m_fovDegrees)
      ∧ (c.setScreenSize w h).m_tanAY2 = (c.setScreenSize w h).m_tanAX2 * (h : ℝ) / (w : ℝ)
      ∧ (c.setScreenSize w h).m_fovDegrees = c.m_fovDegrees
      ∧ (c.setScreenSize w h).m_width = (w : ℝ)
      ∧ (c.setScreenSize w h).m_height = (h : ℝ)) :=
  ⟨⟨rfl, rfl, rfl, rfl, rfl⟩, ⟨rfl, rfl, rfl, rfl, rfl⟩⟩

/-- Witness for C9: the default camera, f = 90, a viewport of 1920 by 1080. -/
theorem Camera.tangents_after_recompute_witness :
    (1920 : Int) ≠ 0
    ∧ (Camera.ctor.setFovDegrees 90).m_tanAX2 = Real.tan (glm.radians 90)
    ∧ (Camera.ctor.setScreenSize 1920 1080).m_tanAY2
        = (Camera.ctor.setScreenSize 1920 1080).m_tanAX2 * ((1080 : Int) : ℝ) / ((1920 : Int) : ℝ) :=
  ⟨by decide,
    (Camera.tangents_after_recompute Camera.ctor 90 1920 1080 (by decide)).1.1,
    (Camera.tangents_after_recompute Camera.ctor 90 1920 1080 (by decide)).2.2.1⟩

/-- C10 at the input f = 90, w = 1920, h = 1080: the projection matrix stored by
setScreenSize (1920, 1080) followed by setFovDegrees (90) has the entries (0,0) = 9/16 and
(1,1) = 1, while the formulas of the claim give 1 / tan (radians (90) / 2) = 1 for (0,0) and
(1920 / 1080) / tan (radians (90) / 2) = 16/9 for (1,1). -/
theorem Camera.projection_entries_fov_90_1920_1080 :
    ((Camera.ctor.setScreenSize 1920 1080).setFovDegrees 90).m_proj 0 0 = 9 / 16
    ∧ ((Camera.ctor.setScreenSize 1920 1080).setFovDegrees 90).m_proj 1 1 = 1
    ∧ 1 / Real.tan (glm.radians 90 / 2) = 1
    ∧ ((1920 : ℝ) / 1080) / Real.tan (glm.radians 90 / 2) = 16 / 9 := by
  have hcot : Real.cos (0.5 * glm.radians 90) / Real.sin (0.5 * glm.radians 90) = 1 := by
    rw [glm.half_of_radians_ninety, Real.cos_pi_div_four, Real.sin_pi_div_four]
    exact div_self (by positivity)
  have htan : Real.tan (glm.radians 90 / 2) = 1 := by
    have h : glm.radians 90 / 2 = Real.pi / 4 := by
      rw [← glm.half_of_radians_ninety]
      ring
    rw [h, Real.tan_pi_div_four]
  refine ⟨?_, ?_, ?_, ?_⟩
  · refine ((Camera.recalcProjection_diagonal _).1).trans ?_
    show Real.cos (0.5 * glm.radians 90) / Real.sin (0.5 * glm.radians 90)
        * ((1080 : Int) : ℝ) / ((1920 : Int) : ℝ) = 9 / 16
    rw [hcot]
    norm_num
  · refine ((Camera.recalcProjection_diagonal _).2).trans ?_
    exact hcot
  · rw [htan]
    norm_num
  · rw [htan]
    norm_num

/-! ## Default construction -/

/-- C11 on the default-constructed camera: the field of view is 65, width over height is
16/9 and `m_tanAY2 = m_tanAX2 * height / width`, as claimed; but `m_tanAX2` is the tangent of
32.5 (radians), which is not `tan (radians (65))`, and `m_proj` is the identity matrix, whose
entry [3][3] is 1, while the perspective projection that `setFovDegrees (65)` stores has 0
there: `setFovDegrees (65)` changes a fresh camera. -/
theorem Camera.ctor_projection_state :
    Camera.ctor.m_fovDegrees = 65
    ∧ Camera.ctor.m_width / Camera.ctor.m_height = 16 / 9
    ∧ Camera.ctor.m_tanAY2 = Camera.ctor.m_tanAX2 * Camera.ctor.m_height / Camera.ctor.m_width
    ∧ Camera.ctor.m_tanAX2 = Real.tan 32.5
    ∧ Camera.ctor.m_tanAX2 ≠ Real.tan (glm.radians 65)
    ∧ Camera.ctor.m_proj 3 3 = 1
    ∧ (Camera.ctor.setFovDegrees 65).m_proj 3 3 = 0
    ∧ Camera.ctor.setFovDegrees 65 ≠ Camera.ctor := by
  have hproj : Camera.ctor.m_proj 3 3 = 1 := by
    norm_num [Camera.ctor, glm.mat4.diag]
  have hproj2 : (Camera.ctor.setFovDegrees 65).m_proj 3 3 = 0 := by
    simp [Camera.setFovDegrees, Camera.recalcProjection, glm.perspectiveFov]
  have hk : kDefaultFov = 65 := by norm_num [kDefaultFov]
  refine ⟨?_, ?_, ?_, ?_, ?_, hproj, hproj2, ?_⟩
  · norm_num [Camera.ctor, kDefaultFov]
  · norm_num [Camera.ctor, kDefaultAspectRatio]
  · norm_num [Camera.ctor, kDefaultAspectRatio]
  · show Real.tan (kDefaultFov * 0.5) = Real.tan 32.5
    norm_num [kDefaultFov]
  · show Real.tan (kDefaultFov * 0.5) ≠ Real.tan (glm.radians 65)
    rw [← hk]
    exact tan_half_degrees_ne_tan_radians
  · intro h
    rw [h, hproj] at hproj2
    exact one_ne_zero hproj2

/-! ## Mouse look and the viewport -/

/-- C12, as stated, fails: with the field of view 45 degrees (tangent 1), the default
sensitivity and the pixel delta dx = 400, the yaw angle is `0.5 * atan (1)` in a viewport of
800 by 600 and `0.5 * atan (1 / 2)` in a viewport of 1600 by 1200. -/
theorem Camera.mouse_angles_viewport_counterexample :
    (0 : Int) < 800 ∧ (0 : Int) < 600 ∧ (0 : Int) < 1600 ∧ (0 : Int) < 1200
    ∧ (fov45.setScreenSize 800 600).m_fovDegrees = (fov45.setScreenSize 1600 1200).m_fovDegrees
    ∧ (fov45.setScreenSize 800 600).m_mouseSensitivity
        = (fov45.setScreenSize 1600 1200).m_mouseSensitivity
    ∧ (fov45.setScreenSize 800 600).yawAngle 400 = 0.5 * Real.arctan 1
    ∧ (fov45.setScreenSize 1600 1200).yawAngle 400 = 0.5 * Real.arctan (1 / 2)
    ∧ (fov45.setScreenSize 800 600).yawAngle 400 ≠ (fov45.setScreenSize 1600 1200).yawAngle 400 := by
  have htan : Real.tan (glm.radians 45) = 1 := by
    rw [glm.radians_forty_five, Real.tan_pi_div_four]
  have hA : (fov45.setScreenSize 800 600).yawAngle 400 = 0.5 * Real.arctan 1 := by
    show kDefaultMouseSensitivity
        * Real.arctan (2 * 400 * Real.tan (glm.radians 45) / ((800 : Int) : ℝ)) = _
    rw [htan]
    norm_num [kDefaultMouseSensitivity]
  have hB : (fov45.setScreenSize 1600 1200).yawAngle 400 = 0.5 * Real.arctan (1 / 2) := by
    show kDefaultMouseSensitivity
        * Real.arctan (2 * 400 * Real.tan (glm.radians 45) / ((1600 : Int) : ℝ)) = _
    rw [htan]
    norm_num [kDefaultMouseSensitivity]
  refine ⟨by decide, by decide, by decide, by decide, rfl, rfl, hA, hB, ?_⟩
  rw [hA, hB]
  intro h
  have h2 : Real.arctan 1 = Real.arctan (1 / 2) := by linarith
  have h3 := Real.arctan_injective h2
  norm_num at h3

/-- C12, amended: for a fixed field of view, a fixed mouse sensitivity and a fixed pixel
delta (dx, dy), the yaw and pitch angles that processMouseMovement computes are the same for
all viewport sizes (w, h) with w, h > 0 of one width w, set through setScreenSize; they are
`mouseSensitivity * atan (2 * dx * tan (radians (fovDegrees)) / w)` and
`mouseSensitivity * atan (2 * dy * tan (radians (fovDegrees)) / w)`. -/
theorem Camera.mouse_angles_same_width (c : Camera) (w h1 h2 : Int) (dx dy : ℝ)
    (_hw : 0 < w) (hh1 : 0 < h1) (hh2 : 0 < h2) :
    (c.setScreenSize w h1).yawAngle dx = (c.setScreenSize w h2).yawAngle dx
    ∧ (c.setScreenSize w h1).pitchAngle dy = (c.setScreenSize w h2).pitchAngle dy
    ∧ (c.setScreenSize w h1).yawAngle dx
        = c.m_mouseSensitivity
          * Real.arctan (2 * dx * Real.tan (glm.radians c.m_fovDegrees) / (w : ℝ))
    ∧ (c.setScreenSize w h1).pitchAngle dy
        = c.m_mouseSensitivity
          * Real.arctan (2 * dy * Real.tan (glm.radians c.m_fovDegrees) / (w : ℝ)) := by
  have h1ne : ((h1 : Int) : ℝ) ≠ 0 := by exact_mod_cast (ne_of_gt hh1)
  have h2ne : ((h2 : Int) : ℝ) ≠ 0 := by exact_mod_cast (ne_of_gt hh2)
  have p1 := Camera.pitchAngle_recalcProjection
    { c with m_width := (w : ℝ), m_height := (h1 : ℝ) } dy h1ne
  have p2 := Camera.pitchAngle_recalcProjection
    { c with m_width := (w : ℝ), m_height := (h2 : ℝ) } dy h2ne
  refine ⟨rfl, ?_, rfl, ?_⟩
  · exact p1.trans p2.symm
  · exact p1

/-- Witness for C12, amended: viewports of 800 by 600 and of 800 by 480. -/
theorem Camera.mouse_angles_same_width_witness :
    (0 : Int) < 800 ∧ (0 : Int) < 600 ∧ (0 : Int) < 480
    ∧ (fov45.setScreenSize 800 600).yawAngle 400 = (fov45.setScreenSize 800 480).yawAngle 400
    ∧ (fov45.setScreenSize 800 600).pitchAngle 300
        = (fov45.setScreenSize 800 480).pitchAngle 300 :=
  ⟨by decide, by decide, by decide,
    (Camera.mouse_angles_same_width fov45 800 600 480 400 300 (by decide) (by decide)
      (by decide)).1,
    (Camera.mouse_angles_same_width fov45 800 600 480 400 300 (by decide) (by decide)
      (by decide)).2.1⟩

/-- C19: in a state produced by `recalcProjection` from a width and a height other than 0
(so after setFovDegrees on such a viewport, or after setScreenSize (w, h) with w and h other
than 0), the pitch angle that processMouseMovement computes for a vertical delta d equals
the yaw angle it computes for a horizontal delta d, both being
`mouseSensitivity * atan (2 * d * tan (radians (fovDegrees)) / width)`; the pitch angle is
the same for every other height. -/
theorem Camera.mouse_mapping_isotropic (c : Camera) (d : ℝ)
    (_hw : c.m_width ≠ 0) (hh : c.m_height ≠ 0) :
    c.recalcProjection.pitchAngle d = c.recalcProjection.yawAngle d
    ∧ c.recalcProjection.yawAngle d
        = c.m_mouseSensitivity
          * Real.arctan (2 * d * Real.tan (glm.radians c.m_fovDegrees) / c.m_width)
    ∧ (∀ f : ℝ, (c.setFovDegrees f).pitchAngle d = (c.setFovDegrees f).yawAngle d)
    ∧ (∀ w h : Int, w ≠ 0 → h ≠ 0 →
        (c.setScreenSize w h).pitchAngle d = (c.setScreenSize w h).yawAngle d
        ∧ (c.setScreenSize w h).pitchAngle d
          = c.m_mouseSensitivity
            * Real.arctan (2 * d * Real.tan (glm.radians c.m_fovDegrees) / (w : ℝ)))
    ∧ (∀ height : ℝ, height ≠ 0 →
        ({ c with m_height := height } : Camera).recalcProjection.pitchAngle d
          = c.recalcProjection.pitchAngle d) := by
  have hp := Camera.pitchAngle_recalcProjection c d hh
  refine ⟨hp.trans (Camera.yawAngle_recalcProjection c d).symm,
    Camera.yawAngle_recalcProjection c d, ?_, ?_, ?_⟩
  · intro f
    exact (Camera.pitchAngle_recalcProjection { c with m_fovDegrees := f } d hh).trans
      (Camera.yawAngle_recalcProjection { c with m_fovDegrees := f } d).symm
  · intro w h _ hh2
    have hne : ((h : Int) : ℝ) ≠ 0 := by exact_mod_cast hh2
    have hp2 := Camera.pitchAngle_recalcProjection
      { c with m_width := (w : ℝ), m_height := (h : ℝ) } d hne
    exact ⟨hp2.trans (Camera.yawAngle_recalcProjection
      { c with m_width := (w : ℝ), m_height := (h : ℝ) } d).symm, hp2⟩
  · intro height hne
    exact (Camera.pitchAngle_recalcProjection { c with m_height := height } d hne).trans hp.symm

/-- Witness for C19: the default camera (width 16/9, height 1) with field of view 45, and a
delta of 3 pixels. -/
theorem Camera.mouse_mapping_isotropic_witness :
    Camera.ctor.m_width ≠ 0 ∧ Camera.ctor.m_height ≠ 0
    ∧ (Camera.ctor.setFovDegrees 45).pitchAngle 3 = (Camera.ctor.setFovDegrees 45).yawAngle 3 :=
  have hw : Camera.ctor.m_width ≠ 0 := by norm_num [Camera.ctor, kDefaultAspectRatio]
  have hh : Camera.ctor.m_height ≠ 0 := by norm_num [Camera.ctor]
  ⟨hw, hh, (Camera.mouse_mapping_isotropic Camera.ctor 3 hw hh).2.2.1 45⟩

/-! ## The quaternion of a rotation step -/

/-- C13 against the source: `quatFromEulerAngles` halves its arguments before it applies the
half-angle formula, so it returns the closed form of the claim at half the arguments. At
(0, 0, pi) it returns (w, x, y, z) = (sqrt 2 / 2, 0, 0, sqrt 2 / 2), where the closed form
of the claim is (0, 0, 0, 1). -/
theorem quatFromEulerAngles_closed_form_mismatch :
    (∀ p y r : ℝ, quatFromEulerAngles p y r = quatFromEulerAnglesSpec (p / 2) (y / 2) (r / 2))
    ∧ quatFromEulerAngles 0 0 Real.pi = ⟨√2 / 2, 0, 0, √2 / 2⟩
    ∧ quatFromEulerAnglesSpec 0 0 Real.pi = ⟨0, 0, 0, 1⟩
    ∧ quatFromEulerAngles 0 0 Real.pi ≠ quatFromEulerAnglesSpec 0 0 Real.pi := by
  have hq : Real.pi * 0.5 * 0.5 = Real.pi / 4 := by ring
  have h1 : quatFromEulerAngles 0 0 Real.pi = ⟨√2 / 2, 0, 0, √2 / 2⟩ := by
    rw [quatFromEulerAngles_eq, hq]
    ext <;> simp [Real.cos_pi_div_four, Real.sin_pi_div_four]
  have h2 : quatFromEulerAnglesSpec 0 0 Real.pi = ⟨0, 0, 0, 1⟩ := by
    ext <;> simp [quatFromEulerAnglesSpec]
  refine ⟨quatFromEulerAngles_eq_spec_half, h1, h2, ?_⟩
  rw [h1, h2]
  intro h
  have hw := congrArg glm.quat.w h
  simp at hw

/-- C14: for all real pitch, yaw and roll, `quatFromEulerAngles (pitch, yaw, roll)` is a unit
quaternion: `w^2 + x^2 + y^2 + z^2 = 1`, and its glm length is 1. -/
theorem quatFromEulerAngles_norm_one (pitch yaw roll : ℝ) :
    (quatFromEulerAngles pitch yaw roll).w ^ 2 + (quatFromEulerAngles pitch yaw roll).x ^ 2
      + (quatFromEulerAngles pitch yaw roll).y ^ 2 + (quatFromEulerAngles pitch yaw roll).z ^ 2 = 1
    ∧ glm.quat.length (quatFromEulerAngles pitch yaw roll) = 1 := by
  refine ⟨?_, quatFromEulerAngles_unit pitch yaw roll⟩
  have h := quatFromEulerAngles_dot_self pitch yaw roll
  simp only [glm.quat.dot] at h
  linarith

/-! ## The view matrix -/

/-- C15: in every state reached from the default-constructed camera by a sequence of calls
of the public methods (setFovDegrees, setScreenSize, setKeyState, resetKeyState,
processMouseMovement, update), the view matrix is
`mat4_cast (orientation) * translate (mat4 (1), -position)` for the orientation and the
position of that state. -/
theorem view_runCalls (calls : List Call) :
    (runCalls Camera.ctor calls).m_view
      = glm.mat4.mul (glm.mat4_cast (runCalls Camera.ctor calls).m_orientation)
          (glm.translate (glm.mat4.diag 1.0)
            (glm.vec3.neg (runCalls Camera.ctor calls).m_position)) :=
  runCalls_keeps_view calls Camera.ctor viewOf_default.symm

/-! ## The translation and rotation steps -/

/-- C16: for every camera, key state and elapsed time dt, update sets the position to
`position + dt * (sx * strafeSpeed * right + sy * strafeSpeed * up + sz * forwardSpeed * dir)`
with the net contributions `sx = [Right] - [Left]`, `sy = [Up] - [Down]`,
`sz = [Back] - [Forward]`, each of them -1, 0 or 1; the speed of the vertical axis is
`m_strafeSpeed`, and `right`, `up`, `dir` are read from the rotation matrix of the
orientation that the call finds, before it applies its roll. -/
theorem Camera.update_translation (c : Camera) (dt : ℝ) :
    (c.updateElapsed dt).m_position
      = glm.vec3.add c.m_position
          (glm.vec3.smul dt
            (glm.vec3.add
              (glm.vec3.add
                (glm.vec3.smul (c.net Key.KeyRight Key.KeyLeft * c.m_strafeSpeed) c.right)
                (glm.vec3.smul (c.net Key.KeyUp Key.KeyDown * c.m_strafeSpeed) c.up))
              (glm.vec3.smul (c.net Key.KeyBack Key.KeyForward * c.m_forwardSpeed) c.dir)))
    ∧ (c.net Key.KeyRight Key.KeyLeft = -1 ∨ c.net Key.KeyRight Key.KeyLeft = 0
        ∨ c.net Key.KeyRight Key.KeyLeft = 1)
    ∧ (c.net Key.KeyUp Key.KeyDown = -1 ∨ c.net Key.KeyUp Key.KeyDown = 0
        ∨ c.net Key.KeyUp Key.KeyDown = 1)
    ∧ (c.net Key.KeyBack Key.KeyForward = -1 ∨ c.net Key.KeyBack Key.KeyForward = 0
        ∨ c.net Key.KeyBack Key.KeyForward = 1)
    ∧ c.right = ⟨glm.mat3_cast c.m_orientation 0 0, glm.mat3_cast c.m_orientation 1 0,
        glm.mat3_cast c.m_orientation 2 0⟩
    ∧ c.up = ⟨glm.mat3_cast c.m_orientation 0 1, glm.mat3_cast c.m_orientation 1 1,
        glm.mat3_cast c.m_orientation 2 1⟩
    ∧ c.dir = ⟨glm.mat3_cast c.m_orientation 0 2, glm.mat3_cast c.m_orientation 1 2,
        glm.mat3_cast c.m_orientation 2 2⟩ := by
  have hnet : ∀ k1 k2 : Key, c.net k1 k2 = -1 ∨ c.net k1 k2 = 0 ∨ c.net k1 k2 = 1 := by
    intro k1 k2
    simp only [Camera.net]
    split_ifs <;> norm_num
  refine ⟨?_, hnet _ _, hnet _ _, hnet _ _, rfl, rfl, rfl⟩
  unfold Camera.updateElapsed
  rw [Camera.update_position_eq, add_sub_cancel_left]
  simp only [Camera.net]
  split_ifs <;> (ext <;> simp only [glm.vec3.add, glm.vec3.smul] <;> ring)

/-- C17, as stated, fails on a camera of height 0: on the default camera after
setScreenSize (800, 0), whose orientation has length 1, processMouseMovement (0, 0) computes
its pitch as the `atanf` of `0 / 0`, which is NaN, and stores a NaN orientation, not the
orientation it found. -/
theorem Camera.processMouseMovement_zero_counterexample :
    glm.quat.length zeroHeightViewport.m_orientation = 1
    ∧ zeroHeightViewport.m_height = 0
    ∧ atanfQuot (2 * 0 * zeroHeightViewport.m_tanAY2) zeroHeightViewport.m_height = none
    ∧ zeroHeightViewport.processMouseMovementIeee 0 0 = none
    ∧ ¬ ∃ c' : Camera, zeroHeightViewport.processMouseMovementIeee 0 0 = some c'
        ∧ c'.m_orientation = zeroHeightViewport.m_orientation := by
  have hh := zeroHeightViewport_height
  have hnone := Camera.processMouseMovementIeee_of_height_zero zeroHeightViewport 0 hh
  refine ⟨Camera.ctor_orientation_unit, hh, ?_, hnone, ?_⟩
  · rw [hh, mul_zero, zero_mul]
    exact atanfQuot_zero_zero
  · rintro ⟨c', hc', -⟩
    rw [hnone] at hc'
    exact Option.noConfusion hc'

/-- C17, amended: for every camera and all dx, dy, processMouseMovement sets the orientation
to `normalize (quatFromEulerAngles (pitch, yaw, 0) * orientation)`, the delta on the left,
with `yaw = mouseSensitivity * atan (2 * dx * tanHalfFovX / width)` and
`pitch = mouseSensitivity * atan (2 * dy * tanHalfFovY / height)`; it writes the orientation
and the view matrix only, so the position, the key flags, the projection parameters and
matrix and the telemetry and timing members are as before; and for a width and a height
other than 0, where the method divides by no zero, processMouseMovement (0, 0) leaves an
orientation of length 1 as it is. -/
theorem Camera.processMouseMovement_step (c : Camera) (dx dy : ℝ) :
    (c.processMouseMovement dx dy).m_orientation
      = glm.normalize (glm.quat.mul
          (quatFromEulerAngles
            (c.m_mouseSensitivity * Real.arctan (2 * dy * c.m_tanAY2 / c.m_height))
            (c.m_mouseSensitivity * Real.arctan (2 * dx * c.m_tanAX2 / c.m_width)) 0)
          c.m_orientation)
    ∧ c.processMouseMovement dx dy
        = { c with
            m_orientation := (c.processMouseMovement dx dy).m_orientation
            m_view := (c.processMouseMovement dx dy).m_view }
    ∧ ((c.processMouseMovement dx dy).m_position = c.m_position
      ∧ (c.processMouseMovement dx dy).m_keyPressed = c.m_keyPressed
      ∧ (c.processMouseMovement dx dy).m_proj = c.m_proj
      ∧ (c.processMouseMovement dx dy).m_fovDegrees = c.m_fovDegrees
      ∧ (c.processMouseMovement dx dy).m_tanAX2 = c.m_tanAX2
      ∧ (c.processMouseMovement dx dy).m_tanAY2 = c.m_tanAY2
      ∧ (c.processMouseMovement dx dy).m_width = c.m_width
      ∧ (c.processMouseMovement dx dy).m_height = c.m_height
      ∧ (c.processMouseMovement dx dy).m_avgFrameTime = c.m_avgFrameTime
      ∧ (c.processMouseMovement dx dy).m_framesRendered = c.m_framesRendered
      ∧ (c.processMouseMovement dx dy).m_lastUpdateTime = c.m_lastUpdateTime)
    ∧ (c.m_width ≠ 0 → c.m_height ≠ 0 →
        c.processMouseMovementIeee dx dy = some (c.processMouseMovement dx dy))
    ∧ (c.m_width ≠ 0 → c.m_height ≠ 0 → glm.quat.length c.m_orientation = 1 →
        c.processMouseMovementIeee 0 0 = some (c.processMouseMovement 0 0)
        ∧ (c.processMouseMovement 0 0).m_orientation = c.m_orientation) := by
  refine ⟨Camera.processMouseMovement_orientation_eq c dx dy, rfl,
    ⟨rfl, rfl, rfl, rfl, rfl, rfl, rfl, rfl, rfl, rfl, rfl⟩,
    Camera.processMouseMovementIeee_eq c dx dy, ?_⟩
  intro hw hh hunit
  refine ⟨Camera.processMouseMovementIeee_eq c 0 0 hw hh, ?_⟩
  rw [Camera.processMouseMovement_orientation_eq]
  have hp : c.pitchAngle 0 = 0 := by
    simp only [Camera.pitchAngle, mul_zero, zero_mul, zero_div, Real.arctan_zero]
  have hy : c.yawAngle 0 = 0 := by
    simp only [Camera.yawAngle, mul_zero, zero_mul, zero_div, Real.arctan_zero]
  rw [hp, hy, quatFromEulerAngles_zero, glm.quat.identity_mul,
    glm.normalize_of_length_eq_one _ hunit]

/-- Witness for C17, amended: the default camera, of width 16/9 and height 1, whose
orientation has length 1. -/
theorem Camera.processMouseMovement_step_witness :
    Camera.ctor.m_width ≠ 0 ∧ Camera.ctor.m_height ≠ 0
    ∧ glm.quat.length Camera.ctor.m_orientation = 1
    ∧ Camera.ctor.processMouseMovementIeee 0 0 = some (Camera.ctor.processMouseMovement 0 0)
    ∧ (Camera.ctor.processMouseMovement 0 0).m_orientation = Camera.ctor.m_orientation :=
  ⟨Camera.ctor_viewport.1, Camera.ctor_viewport.2, Camera.ctor_orientation_unit,
    (Camera.processMouseMovement_step Camera.ctor 0 0).2.2.2.2 Camera.ctor_viewport.1
      Camera.ctor_viewport.2 Camera.ctor_orientation_unit⟩

/-- C18: for every camera with an orientation of length 1, every elapsed time T and every
key state in which exactly one of the two roll keys is pressed, the orientation after two
consecutive calls of update with elapsed time T / 2 each equals the orientation after one
call with elapsed time T; and `quatFromEulerAngles (0, 0, a) * quatFromEulerAngles (0, 0, b)
= quatFromEulerAngles (0, 0, a + b)` for all real a, b. -/
theorem Camera.update_orientation_two_half_steps (c : Camera) (T : ℝ)
    (hunit : glm.quat.length c.m_orientation = 1)
    (hroll : (c.m_keyPressed Key.KeyRollCW = true ∧ c.m_keyPressed Key.KeyRollCCW = false)
      ∨ (c.m_keyPressed Key.KeyRollCW = false ∧ c.m_keyPressed Key.KeyRollCCW = true)) :
    ((c.updateElapsed (T / 2)).updateElapsed (T / 2)).m_orientation
      = (c.updateElapsed T).m_orientation
    ∧ ∀ a b : ℝ, glm.quat.mul (quatFromEulerAngles 0 0 a) (quatFromEulerAngles 0 0 b)
        = quatFromEulerAngles 0 0 (a + b) := by
  have hclock : (c.updateElapsed (T / 2)).m_lastUpdateTime + T / 2 = c.m_lastUpdateTime + T := by
    show c.m_lastUpdateTime + T / 2 + T / 2 = c.m_lastUpdateTime + T
    ring
  refine ⟨?_, quatFromEulerAngles_roll_mul⟩
  rcases hroll with _ | _ <;>
    · unfold Camera.updateElapsed at hclock ⊢
      rw [hclock]
      exact Camera.update_update_orientation c _ _ hunit

/-- Witness for C18: the default camera with E (RollCW) held, T = 2. -/
theorem Camera.update_orientation_two_half_steps_witness :
    glm.quat.length (Camera.ctor.setKeyState Qt.Key_E true).2.m_orientation = 1
    ∧ (Camera.ctor.setKeyState Qt.Key_E true).2.m_keyPressed Key.KeyRollCW = true
    ∧ (Camera.ctor.setKeyState Qt.Key_E true).2.m_keyPressed Key.KeyRollCCW = false
    ∧ (((Camera.ctor.setKeyState Qt.Key_E true).2.updateElapsed (2 / 2)).updateElapsed
        (2 / 2)).m_orientation
      = ((Camera.ctor.setKeyState Qt.Key_E true).2.updateElapsed 2).m_orientation :=
  ⟨Camera.ctor_orientation_unit, by decide, by decide,
    (Camera.update_orientation_two_half_steps (Camera.ctor.setKeyState Qt.Key_E true).2 2
      Camera.ctor_orientation_unit (Or.inl ⟨by decide, by decide⟩)).1⟩

end IsoMesh
